import Mathlib

/-!
# Event registry of libui (`common/events.c`)

A shallow embedding of the handler registry: the `uiEvent` record, its
backing arrays, and the operations `uiNewEvent`, `uiEventAddHandler`,
`uiEventDeleteHandler`, `uiEventFire`, `uiEventHandlerBlocked` and
`uiEventSetHandlerBlocked`, followed by theorems about them.

Conventions of the embedding.

* Pointers (`void *`, function pointers) are natural numbers, `NULL` is `0`.
* `size_t` counters (`len`, `cap`, ...) are natural numbers: they count slots of
  a list that is held in the state, so they cannot reach `2^64`.
* `int` identifiers are integers; the one addition performed on them wraps to
  32 bits (`wrapInt`).
* The backing arrays are kept whole (all `cap` slots, also the ones at and
  after `len`), because the code reuses slots without clearing them.
* Every operation takes the record `*e` and returns the record afterwards
  together with its return value and the diagnostics it reported through
  `uiprivProgrammerError`. The `e == NULL` guard (`checkEventNonnull`) has no
  counterpart: the operations are given the record itself.
* Callbacks are not interpreted: `uiEventFire` returns the list of invocations
  it makes.
-/

namespace Events

/-- A C pointer, `0` being `NULL`. -/
abbrev Ptr := Nat

/-- The null pointer. -/
def NULL : Ptr := 0

/-- The growth step of both backing arrays (`#define nGrow 32`). -/
def nGrow : Nat := 32

/-- Two's complement wrap of an integer to the range of a 32-bit `int`. -/
def wrapInt (x : Int) : Int := (x + 2147483648) % 4294967296 - 2147483648

/-- The record `struct handler`. -/
structure handler where
  id : Int
  f : Ptr
  sender : Ptr
  data : Ptr
  blocked : Bool
deriving DecidableEq

/-- An all-zero handler slot, as zero-filled memory holds. -/
def zeroHandler : handler := ⟨0, NULL, NULL, NULL, false⟩

/-- The comparison `handlerCmp` handed to `qsort` and `bsearch`. -/
def handlerCmp (ha hb : handler) : Int :=
  if ha.id < hb.id then -1
  else if ha.id > hb.id then 1
  else 0

/-- The record `uiEventOptions`: the size tag and the global flag. -/
structure uiEventOptions where
  Size : Nat
  Global : Bool
deriving DecidableEq

/-- The record `struct uiEvent`. `handlers` and `unusedIDs` are the whole
backing arrays. -/
structure uiEvent where
  opts : uiEventOptions
  handlers : List handler
  len : Nat
  cap : Nat
  unusedIDs : List Int
  unusedIDsLen : Nat
  unusedIDsCap : Nat
  firing : Bool
deriving DecidableEq

/-- The functions that report diagnostics under their own name (`__func__`). -/
inductive Func where
  | uiNewEvent
  | uiEventAddHandler
  | uiEventDeleteHandler
  | uiEventFire
  | uiEventHandlerBlocked
  | uiEventSetHandlerBlocked
deriving DecidableEq

/-- What a null-pointer diagnostic names. -/
inductive NullWhat where
  | options
  | callback
deriving DecidableEq

/-- The diagnostics passed to `uiprivProgrammerError` in this file. -/
inductive ProgrammerError where
  | NullPointer (what : NullWhat) (func : Func)
  | WrongStructSize (size : Nat)
  | ChangingEventDuringFire (func : Func)
  | BadSenderForEvent (senderNull : Bool) (eventGlobal : Bool) (func : Func)
  | IntIDNotFound (id : Int) (func : Func)
  | RecursiveEventFire
deriving DecidableEq

/-- The state after an operation, its return value and its diagnostics. -/
structure Outcome (α : Type) where
  event : uiEvent
  ret : α
  errors : List ProgrammerError

/-- One callback invocation `(*f)(sender, args, data)`. -/
structure Invocation where
  f : Ptr
  sender : Ptr
  args : Ptr
  data : Ptr
deriving DecidableEq

/-- Modelled from the spec: `uiprivRealloc`, the allocation facility, which is
not part of the file. It keeps the old contents and zero-fills the delta, the
old and new sizes being counted in slots here. -/
def uiprivRealloc {α : Type} (zero : α) (p : List α) (oldSlots newSlots : Nat) : List α :=
  p.take oldSlots ++ List.replicate (newSlots - oldSlots) zero

/-- The function `uiNewEvent`. `sizeofOptions` stands for
`sizeof (uiEventOptions)`; `uiprivAlloc` returns zeroed memory, so both arrays
are empty, all counters are `0` and `firing` is false. -/
def uiNewEvent (sizeofOptions : Nat) (options : Option uiEventOptions) :
    Option uiEvent × List ProgrammerError :=
  match options with
  | none => (none, [.NullPointer .options .uiNewEvent])
  | some o =>
    if o.Size ≠ sizeofOptions then (none, [.WrongStructSize o.Size])
    else (some ⟨o, [], 0, 0, [], 0, 0, false⟩, [])

/-- The function `checkEventSender`: the verdict and the diagnostic. -/
def checkEventSender (e : uiEvent) (sender : Ptr) (func : Func) :
    Bool × List ProgrammerError :=
  if e.opts.Global && sender != NULL then
    (false, [.BadSenderForEvent false true func])
  else if !e.opts.Global && sender == NULL then
    (false, [.BadSenderForEvent true false func])
  else (true, [])

/-- Ordered insertion by `handlerCmp`, the step of the sort below. -/
def sortInsert (h : handler) : List handler → List handler
  | [] => [h]
  | x :: xs => if handlerCmp h x ≤ 0 then h :: x :: xs else x :: sortInsert h xs

/-- The C library's `qsort` over `handlerCmp`, as an insertion sort. The
library leaves the order of equal elements open; this sort keeps them in the
order of the array. -/
def sortHandlers : List handler → List handler
  | [] => []
  | x :: xs => sortInsert x (sortHandlers xs)

/-- The call `qsort(base, nmemb, ...)`: the first `nmemb` slots are sorted, the
rest of the array is left alone. -/
def qsort (base : List handler) (nmemb : Nat) : List handler :=
  sortHandlers (base.take nmemb) ++ base.drop nmemb

/-- The read `handlers[i].id`. An index outside the array reads foreign
memory, whose content `stray` is supplied by the caller of the model. -/
def loadId (hs : List handler) (i : Int) (stray : Int) : Int :=
  if 0 ≤ i ∧ i < hs.length then (hs.getD i.toNat zeroHandler).id else stray

/-- The function `uiEventAddHandler`. `stray` is the `int` that the read of
`e->handlers[e->len - 1].id` finds when `e->len` is `0`: the index wraps to
`SIZE_MAX`, which addresses the slot before the array. The slot written is
`handlers[len]`; its `blocked` field is not assigned. -/
def uiEventAddHandler (e : uiEvent) (handlerFn sender data : Ptr) (stray : Int) :
    Outcome Int :=
  if e.firing then ⟨e, 0, [.ChangingEventDuringFire .uiEventAddHandler]⟩
  else if handlerFn = NULL then ⟨e, 0, [.NullPointer .callback .uiEventAddHandler]⟩
  else
    let chk := checkEventSender e sender .uiEventAddHandler
    if !chk.1 then ⟨e, 0, chk.2⟩
    else
      let handlers1 :=
        if e.len ≥ e.cap then uiprivRealloc zeroHandler e.handlers e.cap (e.cap + nGrow)
        else e.handlers
      let cap1 := if e.len ≥ e.cap then e.cap + nGrow else e.cap
      let slot := handlers1.getD e.len zeroHandler
      let handlers2 := handlers1.set e.len { slot with id := 0 }
      let id :=
        if e.unusedIDsLen > 0 then e.unusedIDs.getD (e.unusedIDsLen - 1) 0
        else if e.len = 0 then wrapInt (loadId handlers2 ((e.len : Int) - 1) stray + 1)
        else 0
      let unusedIDsLen1 := if e.unusedIDsLen > 0 then e.unusedIDsLen - 1 else e.unusedIDsLen
      let handlers3 := handlers2.set e.len
        { slot with id := id, f := handlerFn, sender := sender, data := data }
      let retID := id
      let len1 := e.len + 1
      ⟨{ e with handlers := qsort handlers3 len1, len := len1, cap := cap1,
                unusedIDsLen := unusedIDsLen1 }, retID, []⟩

/-- The loop of the C library's `bsearch` over `handlerCmp` with the key's id:
the window is `[l, u)`, `fuel` bounds the number of probes. The result is the
index of the slot found, or `none` for `NULL`. -/
def bsearchLoop (key : Int) (base : List handler) : Nat → Nat → Nat → Option Nat
  | 0, _, _ => none
  | fuel + 1, l, u =>
    if l < u then
      let idx := (l + u) / 2
      match base[idx]? with
      | none => none
      | some p =>
        if key < p.id then bsearchLoop key base fuel l idx
        else if key > p.id then bsearchLoop key base fuel (idx + 1) u
        else some idx
    else none

/-- The call `bsearch(&key, base, nmemb, ...)`; `nmemb` probes are more than
the halving window can need. -/
def bsearch (key : Int) (base : List handler) (nmemb : Nat) : Option Nat :=
  bsearchLoop key base nmemb 0 nmemb

/-- The function `findHandler`: the index of the slot found, or `none` with the
diagnostic. -/
def findHandler (e : uiEvent) (id : Int) (func : Func) :
    Option Nat × List ProgrammerError :=
  if e.len = 0 then (none, [.IntIDNotFound id func])
  else
    match bsearch id e.handlers e.len with
    | some i => (some i, [])
    | none => (none, [.IntIDNotFound id func])

/-- The call `memmove(base + dst, base + src, n slots)`. -/
def memmove (base : List handler) (dst src n : Nat) : List handler :=
  base.take dst ++ (base.drop src).take n ++ base.drop (dst + n)

/-- The function `uiEventDeleteHandler`. -/
def uiEventDeleteHandler (e : uiEvent) (id : Int) : Outcome Unit :=
  if e.firing then ⟨e, (), [.ChangingEventDuringFire .uiEventDeleteHandler]⟩
  else
    match findHandler e id .uiEventDeleteHandler with
    | (none, errs) => ⟨e, (), errs⟩
    | (some i, _) =>
      let len1 := e.len - 1
      let handlers1 := memmove e.handlers i (i + 1) (len1 - i)
      let unusedIDs1 :=
        if e.unusedIDsLen ≥ e.unusedIDsCap then
          uiprivRealloc (0 : Int) e.unusedIDs e.unusedIDsCap (e.unusedIDsCap + nGrow)
        else e.unusedIDs
      let unusedIDsCap1 :=
        if e.unusedIDsLen ≥ e.unusedIDsCap then e.unusedIDsCap + nGrow else e.unusedIDsCap
      ⟨{ e with handlers := handlers1, len := len1,
                unusedIDs := unusedIDs1.set e.unusedIDsLen id,
                unusedIDsLen := e.unusedIDsLen + 1,
                unusedIDsCap := unusedIDsCap1 }, (), []⟩

/-- The loop of `uiEventFire`: `h` walks the array for `n` steps and every
slot whose sender matches and which is not blocked is invoked. -/
def fireLoop (sender args : Ptr) : List handler → Nat → List Invocation
  | _, 0 => []
  | [], _ + 1 => []
  | h :: rest, n + 1 =>
    if h.sender = sender ∧ h.blocked = false then
      ⟨h.f, sender, args, h.data⟩ :: fireLoop sender args rest n
    else fireLoop sender args rest n

/-- The result of `uiEventFire`: the state afterwards, the invocations made, in
order, and the diagnostics. -/
structure FireOutcome where
  event : uiEvent
  calls : List Invocation
  errors : List ProgrammerError

/-- The function `uiEventFire`. While the loop runs `firing` is set, so the
mutating operations are refused to the callbacks; the flag is cleared at the
end. -/
def uiEventFire (e : uiEvent) (sender args : Ptr) : FireOutcome :=
  if e.firing then ⟨e, [], [.RecursiveEventFire]⟩
  else
    let chk := checkEventSender e sender .uiEventFire
    if !chk.1 then ⟨e, [], chk.2⟩
    else
      let e1 := { e with firing := true }
      let calls := fireLoop sender args e1.handlers e1.len
      ⟨{ e1 with firing := false }, calls, []⟩

/-- The function `uiEventHandlerBlocked`; it does not change the state. -/
def uiEventHandlerBlocked (e : uiEvent) (id : Int) : Bool × List ProgrammerError :=
  match findHandler e id .uiEventHandlerBlocked with
  | (none, errs) => (false, errs)
  | (some i, _) => ((e.handlers.getD i zeroHandler).blocked, [])

/-- The function `uiEventSetHandlerBlocked`. -/
def uiEventSetHandlerBlocked (e : uiEvent) (id : Int) (blocked : Bool) : Outcome Unit :=
  if e.firing then ⟨e, (), [.ChangingEventDuringFire .uiEventSetHandlerBlocked]⟩
  else
    match findHandler e id .uiEventSetHandlerBlocked with
    | (none, errs) => ⟨e, (), errs⟩
    | (some i, _) =>
      ⟨{ e with handlers :=
          e.handlers.set i { e.handlers.getD i zeroHandler with blocked := blocked } },
        (), []⟩

/-- The handler sequence: the first `len` slots of the backing array. -/
def registered (e : uiEvent) : List handler := e.handlers.take e.len

/-- The free-list: the first `unusedIDsLen` entries of its backing array. -/
def freeList (e : uiEvent) : List Int := e.unusedIDs.take e.unusedIDsLen

/-- Whether `sender` has the shape the registry's mode asks for: null on a
global registry, non-null on a sender-scoped one. -/
def senderMatches (e : uiEvent) (sender : Ptr) : Prop :=
  (e.opts.Global = true ↔ sender = NULL)

instance (e : uiEvent) (sender : Ptr) : Decidable (senderMatches e sender) := by
  unfold senderMatches; infer_instance

/-- The registries that `uiNewEvent` followed by any finite sequence of
`uiEventAddHandler`, `uiEventDeleteHandler` and `uiEventSetHandlerBlocked`
calls produces. -/
inductive Reachable : uiEvent → Prop where
  | new (sizeofOptions : Nat) (options : uiEventOptions) (e : uiEvent)
      (h : (uiNewEvent sizeofOptions (some options)).1 = some e) : Reachable e
  | add (e : uiEvent) (handlerFn sender data : Ptr) (stray : Int)
      (h : Reachable e) : Reachable (uiEventAddHandler e handlerFn sender data stray).event
  | delete (e : uiEvent) (id : Int)
      (h : Reachable e) : Reachable (uiEventDeleteHandler e id).event
  | setBlocked (e : uiEvent) (id : Int) (blocked : Bool)
      (h : Reachable e) : Reachable (uiEventSetHandlerBlocked e id blocked).event

/-- The registry that `uiNewEvent` returns for valid options with the given
global flag (the size tag is taken to be `16`). -/
def freshEvent (global : Bool) : uiEvent := ⟨⟨16, global⟩, [], 0, 0, [], 0, 0, false⟩

/-- The shape every registry built through the public operations has: the
counters agree with the backing arrays and the handler sequence is in ascending
(not necessarily strictly ascending) id order. -/
def WellFormed (e : uiEvent) : Prop :=
  e.handlers.length = e.cap ∧ e.len ≤ e.cap ∧
  ((e.handlers.take e.len).map (fun h => h.id)).Pairwise (fun a b => a ≤ b) ∧
  e.unusedIDs.length = e.unusedIDsCap ∧ e.unusedIDsLen ≤ e.unusedIDsCap

instance (e : uiEvent) : Decidable (WellFormed e) := by
  unfold WellFormed; infer_instance

/-- The ids of the handler sequence, in order. -/
def registeredIds (e : uiEvent) : List Int := (registered e).map (fun h => h.id)

/-- The invocation that `uiEventFire` makes for handler `h`. -/
def invocationOf (sender args : Ptr) (h : handler) : Invocation :=
  ⟨h.f, sender, args, h.data⟩

/-- Whether `uiEventFire` with this sender delivers to the handler. -/
def delivers (sender : Ptr) (h : handler) : Bool :=
  h.sender == sender && !h.blocked

/-- The registries that `uiNewEvent` followed by any finite sequence of calls
of the public operations produces: the three mutators and `uiEventFire`
(`uiEventHandlerBlocked` takes a `const uiEvent *` and returns no state). -/
inductive ReachablePublic : uiEvent → Prop where
  | new (sizeofOptions : Nat) (options : uiEventOptions) (e : uiEvent)
      (h : (uiNewEvent sizeofOptions (some options)).1 = some e) : ReachablePublic e
  | add (e : uiEvent) (handlerFn sender data : Ptr) (stray : Int)
      (h : ReachablePublic e) :
      ReachablePublic (uiEventAddHandler e handlerFn sender data stray).event
  | delete (e : uiEvent) (id : Int)
      (h : ReachablePublic e) : ReachablePublic (uiEventDeleteHandler e id).event
  | setBlocked (e : uiEvent) (id : Int) (blocked : Bool)
      (h : ReachablePublic e) : ReachablePublic (uiEventSetHandlerBlocked e id blocked).event
  | fire (e : uiEvent) (sender args : Ptr)
      (h : ReachablePublic e) : ReachablePublic (uiEventFire e sender args).event

/-- An access that the body of `uiEventAddHandler` makes to one of the two
arrays, with the index it uses. The index is an integer: `len - 1` for
`len = 0` is the `size_t` value `SIZE_MAX`, which addresses slot `-1`. -/
inductive Access where
  | handlerSlot (index : Int)
  | unusedID (index : Int)
deriving DecidableEq

/-- The array accesses of the body of `uiEventAddHandler`, in program order:
the write `h->id = 0` at `handlers[len]`, then either the read of
`unusedIDs[unusedIDsLen - 1]` or, under the guard `e->len == 0`, the read of
`handlers[len - 1]`, then the writes of `f`, `sender`, `data` and the read of
`h->id` at `handlers[len]`. A rejected call makes none. The accesses that
`qsort` makes inside its first `len + 1` slots are not listed. -/
def uiEventAddHandlerAccesses (e : uiEvent) (handlerFn sender : Ptr) : List Access :=
  if e.firing then []
  else if handlerFn = NULL then []
  else if !(checkEventSender e sender .uiEventAddHandler).1 then []
  else
    [Access.handlerSlot e.len] ++
    (if e.unusedIDsLen > 0 then [Access.unusedID ((e.unusedIDsLen : Int) - 1)]
     else if e.len = 0 then [Access.handlerSlot ((e.len : Int) - 1)]
     else []) ++
    [Access.handlerSlot e.len]

/-- Whether an access stays inside its array, the handler array having `cap`
slots and the free-list array `unusedIDsCap` entries. -/
def Access.inBounds (cap unusedIDsCap : Nat) : Access → Prop
  | .handlerSlot i => 0 ≤ i ∧ i < cap
  | .unusedID i => 0 ≤ i ∧ i < unusedIDsCap

instance (cap unusedIDsCap : Nat) (a : Access) : Decidable (a.inBounds cap unusedIDsCap) := by
  cases a <;> unfold Access.inBounds <;> infer_instance

/-! ## Rejected calls -/

/-- C7: on a registry whose firing flag is set, `uiEventAddHandler` returns `0`,
and `uiEventAddHandler`, `uiEventDeleteHandler` and `uiEventSetHandlerBlocked`
all leave the registry record as it was and report the
changing-event-during-fire diagnostic, whatever their arguments. -/
theorem mutation_while_firing_rejected (e : uiEvent) (hfiring : e.firing = true)
    (handlerFn sender data : Ptr) (stray id : Int) (blocked : Bool) :
    (uiEventAddHandler e handlerFn sender data stray).ret = 0 ∧
    (uiEventAddHandler e handlerFn sender data stray).event = e ∧
    (uiEventAddHandler e handlerFn sender data stray).errors =
      [.ChangingEventDuringFire .uiEventAddHandler] ∧
    (uiEventDeleteHandler e id).event = e ∧
    (uiEventDeleteHandler e id).errors = [.ChangingEventDuringFire .uiEventDeleteHandler] ∧
    (uiEventSetHandlerBlocked e id blocked).event = e ∧
    (uiEventSetHandlerBlocked e id blocked).errors =
      [.ChangingEventDuringFire .uiEventSetHandlerBlocked] := by
  simp [uiEventAddHandler, uiEventDeleteHandler, uiEventSetHandlerBlocked, hfiring]

/-- A firing registry with one handler: the three mutators are refused. -/
theorem mutation_while_firing_rejected_witness :
    (⟨⟨16, true⟩, [⟨1, 7, 0, 0, false⟩], 1, 1, [], 0, 0, true⟩ : uiEvent).firing = true ∧
    (uiEventAddHandler ⟨⟨16, true⟩, [⟨1, 7, 0, 0, false⟩], 1, 1, [], 0, 0, true⟩ 9 0 0 0).ret = 0 ∧
    (uiEventDeleteHandler ⟨⟨16, true⟩, [⟨1, 7, 0, 0, false⟩], 1, 1, [], 0, 0, true⟩ 1).event =
      ⟨⟨16, true⟩, [⟨1, 7, 0, 0, false⟩], 1, 1, [], 0, 0, true⟩ :=
  have h := mutation_while_firing_rejected
    ⟨⟨16, true⟩, [⟨1, 7, 0, 0, false⟩], 1, 1, [], 0, 0, true⟩ rfl 9 0 0 0 1 true
  ⟨rfl, h.1, h.2.2.2.1⟩

/-- C8: when the sender has the wrong shape for the registry (non-null on a
global registry, null on a sender-scoped one), `uiEventAddHandler` returns `0`
and leaves the whole registry record (handlers, capacity, free-list, firing) as
it was. -/
theorem add_bad_sender_rejected (e : uiEvent) (handlerFn sender data : Ptr) (stray : Int)
    (hbad : (e.opts.Global = true ∧ sender ≠ NULL) ∨ (e.opts.Global = false ∧ sender = NULL)) :
    (uiEventAddHandler e handlerFn sender data stray).ret = 0 ∧
    (uiEventAddHandler e handlerFn sender data stray).event = e := by
  unfold uiEventAddHandler
  by_cases hf : e.firing = true
  · simp [hf]
  · by_cases hn : handlerFn = NULL
    · simp [hf, hn]
    · rcases hbad with ⟨hg, hs⟩ | ⟨hg, hs⟩
      · simp [hf, hn, checkEventSender, hg, hs]
      · simp [hf, hn, checkEventSender, hg, hs]

/-- A global registry refuses the sender `5`. -/
theorem add_bad_sender_rejected_witness :
    (uiEventAddHandler (freshEvent true) 7 5 0 0).ret = 0 ∧
    (uiEventAddHandler (freshEvent true) 7 5 0 0).event = freshEvent true :=
  add_bad_sender_rejected (freshEvent true) 7 5 0 0 (Or.inl ⟨rfl, by decide⟩)

/-! ## Identifier allocation -/

/-- On any registry just made by `uiNewEvent`, a successful registration returns
the foreign `int` read at index `len - 1` plus one: the branch taken for `len = 0`
is the one that reads the previous slot. -/
theorem add_fresh_ret (sizeofOptions : Nat) (options : uiEventOptions) (e : uiEvent)
    (hnew : (uiNewEvent sizeofOptions (some options)).1 = some e)
    (handlerFn sender data : Ptr) (stray : Int)
    (hfn : handlerFn ≠ NULL) (hs : senderMatches e sender) :
    (uiEventAddHandler e handlerFn sender data stray).ret = wrapInt (stray + 1) := by
  unfold uiNewEvent at hnew
  by_cases hsz : options.Size = sizeofOptions
  · simp [hsz] at hnew
    subst hnew
    unfold senderMatches at hs
    by_cases hg : options.Global = true
    · have hs0 : sender = NULL := hs.mp hg
      simp [uiEventAddHandler, hfn, checkEventSender, hg, hs0, loadId, uiprivRealloc, nGrow]
    · have hs0 : sender ≠ NULL := fun h => hg (hs.mpr h)
      simp [uiEventAddHandler, hfn, checkEventSender, hg, hs0, loadId, uiprivRealloc, nGrow]
  · simp [hsz] at hnew

/-- On a non-firing registry with an empty free-list and a non-empty handler
sequence, a successful registration returns `0`: neither branch assigns the id
after `h->id = 0`. -/
theorem add_nonempty_ret_zero (e : uiEvent) (handlerFn sender data : Ptr) (stray : Int)
    (hnf : e.firing = false) (hfn : handlerFn ≠ NULL) (hs : senderMatches e sender)
    (hfree : e.unusedIDsLen = 0) (hlen : e.len ≠ 0) :
    (uiEventAddHandler e handlerFn sender data stray).ret = 0 ∧
    (uiEventAddHandler e handlerFn sender data stray).errors = [] := by
  have hchk : checkEventSender e sender .uiEventAddHandler = (true, []) := by
    unfold senderMatches at hs
    unfold checkEventSender
    by_cases hg : e.opts.Global = true
    · have hs0 : sender = NULL := hs.mp hg
      simp [hg, hs0]
    · have hs0 : sender ≠ NULL := fun h => hg (hs.mpr h)
      simp [hg, hs0]
  simp [uiEventAddHandler, hnf, hfn, hchk, hfree, hlen]

/-- C2 (evaluation of the code): on the registry `uiNewEvent` returns for a
global event, registering callback `7` with a null sender returns `42` when the
`int` before the array is `41`; the returned id is not the constant `1`. -/
theorem first_id_from_stray_read :
    (uiNewEvent 16 (some ⟨16, true⟩)).1 = some (freshEvent true) ∧
    (uiEventAddHandler (freshEvent true) 7 NULL 0 41).ret = 42 ∧
    (uiEventAddHandler (freshEvent true) 7 NULL 0 41).errors = [] := by
  decide

/-- C3 (evaluation of the code): after one registration on a fresh global
registry (which got id `1`), the next successful registration returns `0`, and
the registry then stores a handler whose id is `0`. -/
theorem second_id_is_zero :
    (uiEventAddHandler (uiEventAddHandler (freshEvent true) 7 NULL 0 0).event 8 NULL 0 0).ret = 0 ∧
    (uiEventAddHandler (uiEventAddHandler (freshEvent true) 7 NULL 0 0).event 8 NULL 0 0).errors
      = [] ∧
    registeredIds
      (uiEventAddHandler (uiEventAddHandler (freshEvent true) 7 NULL 0 0).event 8 NULL 0 0).event
      = [0, 1] := by
  decide

/-- C4 (evaluation of the code): a sender-scoped registry holding the single
handler with id `1`, with an empty free-list and not firing, returns `0` from a
successful registration, where one more than the last id is `2`. -/
theorem next_id_not_minted :
    registeredIds (uiEventAddHandler (freshEvent false) 7 5 0 0).event = [1] ∧
    freeList (uiEventAddHandler (freshEvent false) 7 5 0 0).event = [] ∧
    (uiEventAddHandler (freshEvent false) 7 5 0 0).event.firing = false ∧
    (uiEventAddHandler (uiEventAddHandler (freshEvent false) 7 5 0 0).event 8 6 0 0).ret = 0 ∧
    (uiEventAddHandler (uiEventAddHandler (freshEvent false) 7 5 0 0).event 8 6 0 0).errors
      = [] := by
  decide

/-- C1 (evaluation of the code): three registrations on a fresh global registry
give a reachable registry whose handler sequence has the ids `0, 0, 1`, so the
ids of a reachable registry need not be distinct. -/
theorem reachable_duplicate_ids :
    ¬ ∀ e : uiEvent, Reachable e → (registeredIds e).Nodup := by
  intro h
  have h3 := h _ (Reachable.add _ 9 NULL 0 0 (Reachable.add _ 8 NULL 0 0
    (Reachable.add _ 7 NULL 0 0 (Reachable.new 16 ⟨16, true⟩ (freshEvent true) rfl))))
  revert h3
  decide

/-! ## Dispatch -/

/-- The loop invokes the delivering handlers among the first `n` slots, in
array order. -/
theorem fireLoop_eq (sender args : Ptr) (hs : List handler) (n : Nat) :
    fireLoop sender args hs n =
      ((hs.take n).filter (delivers sender)).map (invocationOf sender args) := by
  induction hs generalizing n with
  | nil => cases n <;> simp [fireLoop]
  | cons h rest ih =>
    cases n with
    | zero => simp [fireLoop]
    | succ n =>
      by_cases hd : h.sender = sender ∧ h.blocked = false
      · have hd2 : delivers sender h = true := by simp [delivers, hd.1, hd.2]
        simp [fireLoop, hd, List.take_succ_cons, List.filter_cons, hd2, ih, invocationOf]
      · have hd2 : delivers sender h = false := by
          simp only [delivers, Bool.and_eq_false_iff, beq_eq_false_iff_ne, ne_eq,
            Bool.not_eq_false_eq_eq_true]
          by_cases h1 : h.sender = sender
          · right
            cases hb : h.blocked
            · exact absurd ⟨h1, hb⟩ hd
            · rfl
          · left; exact h1
        simp [fireLoop, hd, List.take_succ_cons, List.filter_cons, hd2, ih]

/-- C5: on a non-firing registry and for a sender of the right shape,
`uiEventFire` makes exactly one invocation `f(sender, args, data)` for each
handler of the handler sequence whose sender equals `sender` and which is not
blocked, in the order of the handler sequence, and no other; it reports no
diagnostic and leaves the registry as it was. When the handler sequence is in
ascending id order, so are the handlers invoked. -/
theorem fire_dispatch_exact (e : uiEvent) (sender args : Ptr)
    (hnf : e.firing = false) (hs : senderMatches e sender) :
    (uiEventFire e sender args).calls =
      ((registered e).filter (fun h => h.sender == sender && !h.blocked)).map
        (fun h => (⟨h.f, sender, args, h.data⟩ : Invocation)) ∧
    (uiEventFire e sender args).errors = [] ∧
    (uiEventFire e sender args).event = e ∧
    ((registered e).Pairwise (fun a b => a.id ≤ b.id) →
      ((registered e).filter (fun h => h.sender == sender && !h.blocked)).Pairwise
        (fun a b => a.id ≤ b.id)) := by
  have hchk : (checkEventSender e sender .uiEventFire) = (true, []) := by
    unfold senderMatches at hs
    unfold checkEventSender
    by_cases hg : e.opts.Global = true
    · have hs0 : sender = NULL := hs.mp hg
      simp [hg, hs0]
    · have hs0 : sender ≠ NULL := fun h => hg (hs.mpr h)
      simp [hg, hs0]
  refine ⟨?_, ?_, ?_, ?_⟩
  · simp only [uiEventFire, hnf, hchk, fireLoop_eq, registered]
    rfl
  · simp [uiEventFire, hnf, hchk]
  · simp only [uiEventFire, hnf, hchk]
    cases e
    simp_all
  · intro hsorted
    exact hsorted.sublist (List.filter_sublist _)

/-- A sender-scoped registry with three handlers, the second one blocked and
the third one for another sender: firing for sender `5` invokes the first only. -/
theorem fire_dispatch_exact_witness :
    (uiEventFire ⟨⟨16, false⟩, [⟨1, 7, 5, 70, false⟩, ⟨2, 8, 5, 80, true⟩, ⟨3, 9, 6, 90, false⟩],
      3, 3, [], 0, 0, false⟩ 5 11).calls = [⟨7, 5, 11, 70⟩] := by
  have h := (fire_dispatch_exact
    ⟨⟨16, false⟩, [⟨1, 7, 5, 70, false⟩, ⟨2, 8, 5, 80, true⟩, ⟨3, 9, 6, 90, false⟩],
      3, 3, [], 0, 0, false⟩ 5 11 rfl (by decide)).1
  rw [h]
  decide

/-! ## Lookup -/

/-- A slot that the search returns lies in the window and carries the key. -/
theorem bsearchLoop_some (key : Int) (base : List handler) (fuel l u i : Nat)
    (h : bsearchLoop key base fuel l u = some i) :
    l ≤ i ∧ i < u ∧ ∃ p, base[i]? = some p ∧ p.id = key := by
  induction fuel generalizing l u with
  | zero => simp [bsearchLoop] at h
  | succ fuel ih =>
    unfold bsearchLoop at h
    by_cases hlu : l < u
    · simp only [hlu, if_true] at h
      cases hp : base[(l + u) / 2]? with
      | none => simp [hp] at h
      | some p =>
        simp only [hp] at h
        by_cases h1 : key < p.id
        · simp only [h1, if_true] at h
          have := ih l ((l + u) / 2) h
          refine ⟨this.1, ?_, this.2.2⟩
          have : (l + u) / 2 < u := by omega
          omega
        · by_cases h2 : key > p.id
          · simp only [h1, h2, if_true, if_false] at h
            have := ih ((l + u) / 2 + 1) u h
            exact ⟨by omega, this.2.1, this.2.2⟩
          · simp only [h1, h2, if_false, Option.some.injEq] at h
            subst h
            exact ⟨by omega, by omega, p, hp, by omega⟩
    · simp [hlu] at h

/-- The search looks at ids only: arrays with the same ids give the same
result. -/
theorem bsearchLoop_congr (key : Int) (base base2 : List handler)
    (hids : base.map (fun h => h.id) = base2.map (fun h => h.id)) (fuel l u : Nat) :
    bsearchLoop key base fuel l u = bsearchLoop key base2 fuel l u := by
  have hget : ∀ k : Nat, (base[k]?).map (fun h : handler => h.id) =
      (base2[k]?).map (fun h : handler => h.id) := by
    intro k
    rw [← List.getElem?_map, ← List.getElem?_map, hids]
  induction fuel generalizing l u with
  | zero => simp [bsearchLoop]
  | succ fuel ih =>
    unfold bsearchLoop
    by_cases hlu : l < u
    · simp only [hlu, if_true]
      have hk := hget ((l + u) / 2)
      cases hp : base[(l + u) / 2]? with
      | none =>
        cases hq : base2[(l + u) / 2]? with
        | none => rfl
        | some q => simp [hp, hq] at hk
      | some p =>
        cases hq : base2[(l + u) / 2]? with
        | none => simp [hp, hq] at hk
        | some q =>
          simp only [hp, hq, Option.map_some', Option.some.injEq] at hk
          simp only [hk, ih]
    · simp [hlu]

/-- The result of the search does not depend on the fuel once the fuel covers
the window, so the `nmemb` probes that `bsearch` allows never run out. -/
theorem bsearchLoop_fuel (key : Int) (base : List handler) (fuel fuel2 l u : Nat)
    (h1 : u - l ≤ fuel) (h2 : u - l ≤ fuel2) :
    bsearchLoop key base fuel l u = bsearchLoop key base fuel2 l u := by
  induction fuel generalizing fuel2 l u with
  | zero =>
    cases fuel2 with
    | zero => rfl
    | succ f2 =>
      have hlu : ¬ l < u := by omega
      simp [bsearchLoop, hlu]
  | succ fuel ih =>
    cases fuel2 with
    | zero =>
      have hlu : ¬ l < u := by omega
      simp [bsearchLoop, hlu]
    | succ f2 =>
      unfold bsearchLoop
      by_cases hlu : l < u
      · simp only [hlu, if_true]
        cases base[(l + u) / 2]? with
        | none => rfl
        | some p =>
          simp only
          rw [ih f2 l ((l + u) / 2) (by omega) (by omega),
            ih f2 ((l + u) / 2 + 1) u (by omega) (by omega)]
      · simp [hlu]

/-- When `findHandler` finds a slot, the slot is one of the handler sequence,
it carries the id asked for, and no diagnostic is reported. -/
theorem findHandler_some (e : uiEvent) (id : Int) (func : Func) (i : Nat)
    (h : (findHandler e id func).1 = some i) :
    findHandler e id func = (some i, []) ∧ i < e.len ∧
      ∃ p, e.handlers[i]? = some p ∧ p.id = id := by
  unfold findHandler at h ⊢
  by_cases h0 : e.len = 0
  · simp [h0] at h
  · simp only [h0, if_false] at h ⊢
    cases hb : bsearch id e.handlers e.len with
    | none => simp [hb] at h
    | some j =>
      simp only [hb, Option.some.injEq] at h
      subst h
      have := bsearchLoop_some id e.handlers e.len 0 e.len j hb
      exact ⟨rfl, this.2.1, this.2.2⟩

/-- When `findHandler` finds nothing it reports the id-not-found diagnostic
under the caller's name. -/
theorem findHandler_none (e : uiEvent) (id : Int) (func : Func)
    (h : (findHandler e id func).1 = none) :
    findHandler e id func = (none, [.IntIDNotFound id func]) := by
  unfold findHandler at h ⊢
  by_cases h0 : e.len = 0
  · simp [h0]
  · simp only [h0, if_false] at h ⊢
    cases hb : bsearch id e.handlers e.len with
    | none => rfl
    | some j => simp [hb] at h

/-- An id that no handler of the handler sequence carries is not found. -/
theorem findHandler_unknown (e : uiEvent) (id : Int) (func : Func)
    (hid : id ∉ registeredIds e) :
    findHandler e id func = (none, [.IntIDNotFound id func]) := by
  apply findHandler_none
  cases hf : (findHandler e id func).1 with
  | none => rfl
  | some i =>
    exfalso
    obtain ⟨_, hi, p, hp, hpid⟩ := findHandler_some e id func i hf
    apply hid
    unfold registeredIds registered
    rw [List.mem_map]
    refine ⟨p, ?_, hpid⟩
    rw [List.mem_iff_getElem?]
    refine ⟨i, ?_⟩
    rw [List.getElem?_take_of_lt hi]
    exact hp

/-- The slot that `findHandler` returns does not depend on the caller's name. -/
theorem findHandler_fst_func (e : uiEvent) (id : Int) (func func2 : Func) :
    (findHandler e id func).1 = (findHandler e id func2).1 := by
  unfold findHandler
  by_cases h0 : e.len = 0
  · simp [h0]
  · simp only [h0, if_false]
    cases bsearch id e.handlers e.len <;> rfl

/-- C9: on a non-firing registry and for an id that no handler of the handler
sequence carries, `uiEventDeleteHandler` leaves the registry record as it was
and reports the id-not-found diagnostic, and `uiEventHandlerBlocked` returns
false and reports the id-not-found diagnostic. -/
theorem unknown_id_no_effect (e : uiEvent) (id : Int)
    (hnf : e.firing = false) (hid : id ∉ registeredIds e) :
    (uiEventDeleteHandler e id).event = e ∧
    (uiEventDeleteHandler e id).errors = [.IntIDNotFound id .uiEventDeleteHandler] ∧
    uiEventHandlerBlocked e id = (false, [.IntIDNotFound id .uiEventHandlerBlocked]) := by
  simp [uiEventDeleteHandler, uiEventHandlerBlocked, hnf, findHandler_unknown e id _ hid]

/-- A registry holding the ids `1` and `3` is asked about the id `2`. -/
theorem unknown_id_no_effect_witness :
    (uiEventDeleteHandler
      ⟨⟨16, true⟩, [⟨1, 7, 0, 0, false⟩, ⟨3, 8, 0, 0, true⟩], 2, 2, [2], 1, 1, false⟩ 2).event =
      ⟨⟨16, true⟩, [⟨1, 7, 0, 0, false⟩, ⟨3, 8, 0, 0, true⟩], 2, 2, [2], 1, 1, false⟩ ∧
    uiEventHandlerBlocked
      ⟨⟨16, true⟩, [⟨1, 7, 0, 0, false⟩, ⟨3, 8, 0, 0, true⟩], 2, 2, [2], 1, 1, false⟩ 2 =
      (false, [.IntIDNotFound 2 .uiEventHandlerBlocked]) :=
  have h := unknown_id_no_effect
    ⟨⟨16, true⟩, [⟨1, 7, 0, 0, false⟩, ⟨3, 8, 0, 0, true⟩], 2, 2, [2], 1, 1, false⟩ 2
    rfl (by decide)
  ⟨h.1, h.2.2⟩

/-! ## Blocking -/

/-- Writing the `blocked` field of a slot leaves the ids of the array alone. -/
theorem map_id_set_blocked (hs : List handler) (i : Nat) (b : Bool) :
    (hs.set i { hs.getD i zeroHandler with blocked := b }).map (fun h => h.id) =
      hs.map (fun h => h.id) := by
  apply List.ext_getElem?
  intro k
  rw [List.getElem?_map, List.getElem?_set]
  by_cases hik : i = k
  · subst hik
    by_cases hlt : i < hs.length
    · simp [hlt, List.getD_eq_getElem?_getD, List.getElem?_eq_getElem hlt]
    · simp [hlt, List.getElem?_eq_none (Nat.le_of_not_lt hlt)]
  · simp [hik]

/-- The lookup depends on `len` and on the ids of the array only. -/
theorem findHandler_congr (e e2 : uiEvent) (id : Int) (func : Func)
    (hlen : e2.len = e.len)
    (hids : e2.handlers.map (fun h => h.id) = e.handlers.map (fun h => h.id)) :
    findHandler e2 id func = findHandler e id func := by
  unfold findHandler bsearch
  rw [hlen, bsearchLoop_congr id e2.handlers e.handlers hids]

/-- Writing back the value a slot already holds changes nothing. -/
theorem set_blocked_twice (hs : List handler) (i : Nat) (b : Bool)
    (hb : (hs.getD i zeroHandler).blocked = b) :
    (hs.set i { hs.getD i zeroHandler with blocked := !b }).set i
      { (hs.set i { hs.getD i zeroHandler with blocked := !b }).getD i zeroHandler with
        blocked := b } = hs := by
  apply List.ext_getElem?
  intro k
  rw [List.getElem?_set]
  by_cases hik : i = k
  · subst hik
    by_cases hlt : i < hs.length
    · have hget : hs.getD i zeroHandler = hs[i] := by
        simp [List.getD_eq_getElem?_getD, List.getElem?_eq_getElem hlt]
      rw [hget] at hb
      simp [hlt, List.getD_eq_getElem?_getD, List.getElem?_eq_getElem hlt, List.getElem?_set]
      cases hh : hs[i]
      simp_all
    · simp [hlt, List.getElem?_eq_none (Nat.le_of_not_lt hlt)]
  · simp [hik, List.getElem?_set]

/-- What `uiEventSetHandlerBlocked` does when the lookup finds slot `i`. -/
theorem setBlocked_found (e : uiEvent) (id : Int) (b : Bool) (i : Nat)
    (hnf : e.firing = false)
    (hs : findHandler e id .uiEventSetHandlerBlocked = (some i, [])) :
    (uiEventSetHandlerBlocked e id b).event =
      { e with handlers :=
          e.handlers.set i { e.handlers.getD i zeroHandler with blocked := b } } := by
  simp [uiEventSetHandlerBlocked, hnf, hs]

/-- Blocking and then unblocking an id that `uiEventHandlerBlocked` reports as
found and unblocked gives back the registry record. -/
theorem setBlocked_true_false_of_query (e : uiEvent) (id : Int)
    (hnf : e.firing = false) (hunb : uiEventHandlerBlocked e id = (false, [])) :
    (uiEventSetHandlerBlocked (uiEventSetHandlerBlocked e id true).event id false).event = e := by
  cases hf : (findHandler e id .uiEventHandlerBlocked).1 with
  | none =>
    have := findHandler_none e id .uiEventHandlerBlocked hf
    simp [uiEventHandlerBlocked, this] at hunb
  | some i =>
    have hq := (findHandler_some e id .uiEventHandlerBlocked i hf).1
    have hset : (findHandler e id .uiEventSetHandlerBlocked).1 = some i := by
      rw [findHandler_fst_func e id .uiEventSetHandlerBlocked .uiEventHandlerBlocked, hf]
    have hs := (findHandler_some e id .uiEventSetHandlerBlocked i hset).1
    have hblk : (e.handlers.getD i zeroHandler).blocked = false := by
      simp only [uiEventHandlerBlocked, hq, Prod.mk.injEq, and_true] at hunb
      exact hunb
    have h1 := setBlocked_found e id true i hnf hs
    have hs1 : findHandler (uiEventSetHandlerBlocked e id true).event id
        .uiEventSetHandlerBlocked = (some i, []) := by
      rw [h1]
      exact (findHandler_congr e
        ({ e with handlers :=
            e.handlers.set i { e.handlers.getD i zeroHandler with blocked := true } })
        id .uiEventSetHandlerBlocked rfl (map_id_set_blocked e.handlers i true)).trans hs
    have hnf1 : (uiEventSetHandlerBlocked e id true).event.firing = false := by
      rw [h1]; exact hnf
    have h2 := set_blocked_twice e.handlers i false hblk
    rw [setBlocked_found _ id false i hnf1 hs1, h1]
    exact (congrArg (fun hs => ({ e with handlers := hs } : uiEvent)) h2).trans
      (by cases e; rfl)

/-- C10: on a non-firing registry, for an id whose handler is unblocked (every
handler of the handler sequence that carries the id has `blocked = false`),
`uiEventSetHandlerBlocked(e, id, true)` followed by
`uiEventSetHandlerBlocked(e, id, false)` gives back the registry record it
started from, so `uiEventFire` makes the same invocations as before for every
sender and args. -/
theorem block_round_trip (e : uiEvent) (id : Int)
    (hnf : e.firing = false)
    (hunb : ∀ h ∈ registered e, h.id = id → h.blocked = false) :
    (uiEventSetHandlerBlocked (uiEventSetHandlerBlocked e id true).event id false).event = e ∧
    ∀ sender args : Ptr,
      (uiEventFire (uiEventSetHandlerBlocked (uiEventSetHandlerBlocked e id true).event
        id false).event sender args).calls = (uiEventFire e sender args).calls := by
  have key : (uiEventSetHandlerBlocked (uiEventSetHandlerBlocked e id true).event
      id false).event = e := by
    cases hf : (findHandler e id .uiEventSetHandlerBlocked).1 with
    | none =>
      have hnone := findHandler_none e id .uiEventSetHandlerBlocked hf
      have h1 : ∀ b, (uiEventSetHandlerBlocked e id b).event = e := by
        intro b
        simp [uiEventSetHandlerBlocked, hnf, hnone]
      rw [h1 true, h1 false]
    | some i =>
      apply setBlocked_true_false_of_query e id hnf
      rw [findHandler_fst_func e id .uiEventSetHandlerBlocked .uiEventHandlerBlocked] at hf
      obtain ⟨hq, hi, p, hp, hpid⟩ := findHandler_some e id .uiEventHandlerBlocked i hf
      have hmem : p ∈ registered e := by
        unfold registered
        rw [List.mem_iff_getElem?]
        exact ⟨i, by rw [List.getElem?_take_of_lt hi]; exact hp⟩
      have hb := hunb p hmem hpid
      simp [uiEventHandlerBlocked, hq, hp, hb]
  exact ⟨key, fun sender args => by rw [key]⟩

/-- A registry whose handler `2` is unblocked: blocking and unblocking it gives
the registry back. -/
theorem block_round_trip_witness :
    (uiEventSetHandlerBlocked (uiEventSetHandlerBlocked
      ⟨⟨16, true⟩, [⟨1, 7, 0, 0, true⟩, ⟨2, 8, 0, 0, false⟩], 2, 2, [], 0, 0, false⟩
      2 true).event 2 false).event =
      ⟨⟨16, true⟩, [⟨1, 7, 0, 0, true⟩, ⟨2, 8, 0, 0, false⟩], 2, 2, [], 0, 0, false⟩ :=
  (block_round_trip
    ⟨⟨16, true⟩, [⟨1, 7, 0, 0, true⟩, ⟨2, 8, 0, 0, false⟩], 2, 2, [], 0, 0, false⟩ 2
    rfl (by decide)).1

/-! ## Lookup in a sorted handler sequence -/

/-- In an array whose first `n` slots are in ascending id order, an earlier
slot has the smaller or equal id. -/
theorem sorted_slots (base : List handler) (n : Nat)
    (hsorted : ((base.take n).map (fun h => h.id)).Pairwise (fun a b => a ≤ b))
    (a b : Nat) (pa pb : handler) (hab : a < b) (hbn : b < n)
    (ha : base[a]? = some pa) (hb : base[b]? = some pb) : pa.id ≤ pb.id := by
  rw [List.pairwise_iff_getElem] at hsorted
  have hbl : b < base.length := by
    rcases List.getElem?_eq_some_iff.mp hb with ⟨h, _⟩
    exact h
  have hlen : ((base.take n).map (fun h => h.id)).length = min n base.length := by simp
  have hb2 : b < ((base.take n).map (fun h => h.id)).length := by rw [hlen]; omega
  have ha2 : a < ((base.take n).map (fun h => h.id)).length := by omega
  have := hsorted a b ha2 hb2 hab
  have ea : ((base.take n).map (fun h => h.id))[a] = pa.id := by
    have : ((base.take n).map (fun h => h.id))[a]? = some pa.id := by
      rw [List.getElem?_map, List.getElem?_take_of_lt (by omega), ha]; rfl
    rw [List.getElem?_eq_getElem ha2] at this
    exact Option.some.inj this
  have eb : ((base.take n).map (fun h => h.id))[b] = pb.id := by
    have : ((base.take n).map (fun h => h.id))[b]? = some pb.id := by
      rw [List.getElem?_map, List.getElem?_take_of_lt hbn, hb]; rfl
    rw [List.getElem?_eq_getElem hb2] at this
    exact Option.some.inj this
  rw [ea, eb] at this
  exact this

/-- In a sorted array the search finds a slot whenever the key is present in
the window and the fuel covers the window. -/
theorem bsearchLoop_complete (key : Int) (base : List handler) (n : Nat)
    (hn : n ≤ base.length)
    (hsorted : ((base.take n).map (fun h => h.id)).Pairwise (fun a b => a ≤ b))
    (fuel l u : Nat) (hu : u ≤ n) (hfuel : u - l ≤ fuel)
    (j : Nat) (hlj : l ≤ j) (hju : j < u) (p : handler)
    (hp : base[j]? = some p) (hkey : p.id = key) :
    ∃ i, bsearchLoop key base fuel l u = some i := by
  induction fuel generalizing l u with
  | zero => omega
  | succ fuel ih =>
    unfold bsearchLoop
    have hlu : l < u := by omega
    have hidx : (l + u) / 2 < base.length := by omega
    simp only [hlu, if_true, List.getElem?_eq_getElem hidx]
    have hq : base[(l + u) / 2]? = some base[(l + u) / 2] := List.getElem?_eq_getElem hidx
    by_cases h1 : key < base[(l + u) / 2].id
    · simp only [h1, if_true]
      have hj : j < (l + u) / 2 := by
        by_contra hcon
        rcases Nat.eq_or_lt_of_le (Nat.le_of_not_lt hcon) with heq | hlt
        · rw [← heq, hq] at hp
          have := Option.some.inj hp
          rw [this] at h1
          omega
        · have := sorted_slots base n hsorted _ _ _ _ hlt (by omega) hq hp
          omega
      exact ih l ((l + u) / 2) (by omega) (by omega) hlj hj
    · by_cases h2 : key > base[(l + u) / 2].id
      · simp only [h1, h2, if_true, if_false]
        have hj : (l + u) / 2 < j := by
          by_contra hcon
          rcases Nat.eq_or_lt_of_le (Nat.le_of_not_lt hcon) with heq | hlt
          · rw [heq, hq] at hp
            have := Option.some.inj hp
            rw [this] at h2
            omega
          · have := sorted_slots base n hsorted _ _ _ _ hlt (by omega) hp hq
            omega
        exact ih ((l + u) / 2 + 1) u hu (by omega) (by omega) hju
      · simp only [h1, h2, if_false]
        exact ⟨_, rfl⟩

/-- In a well-formed registry every id of the handler sequence is found. -/
theorem findHandler_registered (e : uiEvent) (id : Int) (func : Func)
    (hwf : WellFormed e) (hreg : id ∈ registeredIds e) :
    ∃ i, findHandler e id func = (some i, []) := by
  obtain ⟨hcap, hlen, hsorted, _, _⟩ := hwf
  unfold registeredIds registered at hreg
  rw [List.mem_map] at hreg
  obtain ⟨p, hpmem, hpid⟩ := hreg
  rw [List.mem_iff_getElem?] at hpmem
  obtain ⟨j, hj⟩ := hpmem
  have hjlen : j < e.len := by
    rcases List.getElem?_eq_some_iff.mp hj with ⟨h, _⟩
    simp at h
    exact h.1
  rw [List.getElem?_take_of_lt hjlen] at hj
  obtain ⟨i, hi⟩ := bsearchLoop_complete id e.handlers e.len (by omega) hsorted e.len 0 e.len
    (Nat.le_refl _) (by omega) j (Nat.zero_le _) hjlen p hj hpid
  refine ⟨i, ?_⟩
  unfold findHandler bsearch
  have h0 : e.len ≠ 0 := by omega
  simp [h0, hi]

/-! ## Identifier reuse -/

/-- A sender of the right shape passes `checkEventSender`. -/
theorem checkEventSender_ok (e : uiEvent) (sender : Ptr) (func : Func)
    (hs : senderMatches e sender) : checkEventSender e sender func = (true, []) := by
  unfold senderMatches at hs
  unfold checkEventSender
  by_cases hg : e.opts.Global = true
  · have hs0 : sender = NULL := hs.mp hg
    simp [hg, hs0]
  · have hs0 : sender ≠ NULL := fun h => hg (hs.mpr h)
    simp [hg, hs0]

/-- What `uiEventDeleteHandler` does to the free-list when the lookup finds a
slot: the id is written at index `unusedIDsLen` of the array, grown first when
it is full, and the counter goes up by one. -/
theorem delete_found_freeList (e : uiEvent) (id : Int) (i : Nat)
    (hnf : e.firing = false)
    (hs : findHandler e id .uiEventDeleteHandler = (some i, [])) :
    (uiEventDeleteHandler e id).event.unusedIDs =
      (if e.unusedIDsLen ≥ e.unusedIDsCap then
          uiprivRealloc (0 : Int) e.unusedIDs e.unusedIDsCap (e.unusedIDsCap + nGrow)
        else e.unusedIDs).set e.unusedIDsLen id ∧
    (uiEventDeleteHandler e id).event.unusedIDsLen = e.unusedIDsLen + 1 ∧
    (uiEventDeleteHandler e id).event.firing = false ∧
    (uiEventDeleteHandler e id).event.opts = e.opts := by
  simp [uiEventDeleteHandler, hnf, hs]

/-- A successful registration on a registry with a non-empty free-list returns
the last entry of the free-list and shortens the free-list by that entry. -/
theorem add_pops_freeList (e : uiEvent) (handlerFn sender data : Ptr) (stray : Int)
    (hnf : e.firing = false) (hfn : handlerFn ≠ NULL) (hs : senderMatches e sender)
    (hpos : 0 < e.unusedIDsLen) :
    (uiEventAddHandler e handlerFn sender data stray).ret =
      e.unusedIDs.getD (e.unusedIDsLen - 1) 0 ∧
    (uiEventAddHandler e handlerFn sender data stray).event.unusedIDs = e.unusedIDs ∧
    (uiEventAddHandler e handlerFn sender data stray).event.unusedIDsLen =
      e.unusedIDsLen - 1 := by
  simp [uiEventAddHandler, hnf, hfn, checkEventSender_ok e sender _ hs, hpos]

/-- C6: on a well-formed non-firing registry in which id `X` is registered,
`uiEventDeleteHandler(e, X)` followed by a `uiEventAddHandler` with a non-null
callback and a sender of the right shape returns `X`, and the free-list
afterwards is the free-list from before the delete. -/
theorem delete_then_add_reuses_id (e : uiEvent) (X : Int)
    (handlerFn sender data : Ptr) (stray : Int)
    (hwf : WellFormed e) (hnf : e.firing = false) (hreg : X ∈ registeredIds e)
    (hfn : handlerFn ≠ NULL) (hs : senderMatches e sender) :
    (uiEventAddHandler (uiEventDeleteHandler e X).event handlerFn sender data stray).ret = X ∧
    freeList (uiEventAddHandler (uiEventDeleteHandler e X).event handlerFn sender data
      stray).event = freeList e := by
  obtain ⟨i, hi⟩ := findHandler_registered e X .uiEventDeleteHandler hwf hreg
  obtain ⟨hU, hUlen, hUnf, hUopts⟩ := delete_found_freeList e X i hnf hi
  have hs1 : senderMatches (uiEventDeleteHandler e X).event sender := by
    unfold senderMatches at hs ⊢
    rw [hUopts]
    exact hs
  obtain ⟨hret, hA, hAlen⟩ := add_pops_freeList (uiEventDeleteHandler e X).event
    handlerFn sender data stray hUnf hfn hs1 (by omega)
  obtain ⟨_, _, _, hucap, hulen⟩ := hwf
  have hgrown : ∀ us : List Int, e.unusedIDsLen < us.length →
      (us.set e.unusedIDsLen X).getD e.unusedIDsLen 0 = X := by
    intro us hlt
    simp [List.getD_eq_getElem?_getD, hlt]
  have htake : ∀ us : List Int,
      (us.set e.unusedIDsLen X).take e.unusedIDsLen = us.take e.unusedIDsLen := by
    intro us
    rw [List.set_take]
    exact List.set_eq_of_length_le (by simp)
  constructor
  · rw [hret, hUlen, hU, Nat.add_sub_cancel]
    apply hgrown
    by_cases hfull : e.unusedIDsLen ≥ e.unusedIDsCap
    · simp [hfull, uiprivRealloc, nGrow]
      omega
    · simp only [hfull, if_false]
      omega
  · unfold freeList
    rw [hA, hAlen, hUlen, hU, Nat.add_sub_cancel, htake]
    by_cases hfull : e.unusedIDsLen ≥ e.unusedIDsCap
    · have heq : e.unusedIDsLen = e.unusedIDs.length := by omega
      simp only [hfull, if_true, uiprivRealloc]
      rw [← hucap, List.take_length, heq, List.take_left]
      simp
    · simp only [hfull, if_false]

/-- A registry holding the ids `1, 2, 3` with the free-list `[9]`: deleting `2`
and registering again returns `2` and leaves the free-list `[9]`. -/
theorem delete_then_add_reuses_id_witness :
    (uiEventAddHandler (uiEventDeleteHandler
      ⟨⟨16, false⟩, [⟨1, 7, 5, 0, false⟩, ⟨2, 8, 5, 0, false⟩, ⟨3, 9, 6, 0, false⟩],
        3, 3, [9], 1, 1, false⟩ 2).event 4 6 0 0).ret = 2 ∧
    freeList (uiEventAddHandler (uiEventDeleteHandler
      ⟨⟨16, false⟩, [⟨1, 7, 5, 0, false⟩, ⟨2, 8, 5, 0, false⟩, ⟨3, 9, 6, 0, false⟩],
        3, 3, [9], 1, 1, false⟩ 2).event 4 6 0 0).event = [9] :=
  delete_then_add_reuses_id
    ⟨⟨16, false⟩, [⟨1, 7, 5, 0, false⟩, ⟨2, 8, 5, 0, false⟩, ⟨3, 9, 6, 0, false⟩],
      3, 3, [9], 1, 1, false⟩ 2 4 6 0 0 (by decide) rfl (by decide) (by decide) (by decide)

/-! ## Well-formedness of reachable registries -/

/-- Insertion adds one element. -/
theorem sortInsert_length (h : handler) (l : List handler) :
    (sortInsert h l).length = l.length + 1 := by
  induction l with
  | nil => rfl
  | cons x xs ih =>
    unfold sortInsert
    by_cases hc : handlerCmp h x ≤ 0
    · simp [hc]
    · simp [hc, ih]

/-- The sort keeps the number of elements. -/
theorem sortHandlers_length (l : List handler) : (sortHandlers l).length = l.length := by
  induction l with
  | nil => rfl
  | cons x xs ih => simp [sortHandlers, sortInsert_length, ih]

/-- The comparison is non-positive exactly when the first id is not the larger. -/
theorem handlerCmp_le_zero (a b : handler) : handlerCmp a b ≤ 0 ↔ a.id ≤ b.id := by
  unfold handlerCmp
  by_cases h1 : a.id < b.id
  · simp [h1]; omega
  · by_cases h2 : a.id > b.id
    · simp [h1, h2]
    · simp [h1, h2]; omega

/-- Insertion into a list in ascending id order gives such a list, with the
same elements and the new one. -/
theorem sortInsert_sorted (h : handler) (l : List handler)
    (hl : l.Pairwise (fun a b => a.id ≤ b.id)) :
    (sortInsert h l).Pairwise (fun a b => a.id ≤ b.id) ∧
    ∀ x, x ∈ sortInsert h l ↔ x = h ∨ x ∈ l := by
  induction l with
  | nil => simp [sortInsert]
  | cons x xs ih =>
    rw [List.pairwise_cons] at hl
    obtain ⟨ihs, ihm⟩ := ih hl.2
    unfold sortInsert
    by_cases hc : handlerCmp h x ≤ 0
    · have hle := (handlerCmp_le_zero h x).mp hc
      simp only [hc, if_true]
      refine ⟨?_, by simp⟩
      rw [List.pairwise_cons, List.pairwise_cons]
      refine ⟨?_, hl.1, hl.2⟩
      intro y hy
      rcases List.mem_cons.mp hy with rfl | hy
      · exact hle
      · exact le_trans hle (hl.1 y hy)
    · have hgt : x.id ≤ h.id := by
        have := (handlerCmp_le_zero h x).not.mp hc
        omega
      simp only [hc, if_false]
      constructor
      · rw [List.pairwise_cons]
        refine ⟨?_, ihs⟩
        intro y hy
        rcases (ihm y).mp hy with rfl | hy
        · exact hgt
        · exact hl.1 y hy
      · intro y
        simp only [List.mem_cons, ihm]
        tauto

/-- The sort returns its input in ascending id order. -/
theorem sortHandlers_sorted (l : List handler) :
    (sortHandlers l).Pairwise (fun a b => a.id ≤ b.id) := by
  induction l with
  | nil => simp [sortHandlers]
  | cons x xs ih => exact (sortInsert_sorted x _ ih).1

/-- The call `qsort(base, n)` keeps the size of the array. -/
theorem qsort_length (base : List handler) (n : Nat) :
    (qsort base n).length = base.length := by
  simp [qsort, sortHandlers_length]
  omega

/-- After `qsort(base, n)` the first `n` slots are the sorted first `n` slots. -/
theorem take_qsort (base : List handler) (n : Nat) (hn : n ≤ base.length) :
    (qsort base n).take n = sortHandlers (base.take n) := by
  unfold qsort
  apply List.take_left'
  simp [sortHandlers_length, hn]

/-- A registration keeps a well-formed registry well-formed. -/
theorem wellFormed_add (e : uiEvent) (handlerFn sender data : Ptr) (stray : Int)
    (hwf : WellFormed e) :
    WellFormed (uiEventAddHandler e handlerFn sender data stray).event := by
  unfold uiEventAddHandler
  by_cases hf : e.firing = true
  · simpa [hf] using hwf
  · by_cases hn : handlerFn = NULL
    · simpa [hf, hn] using hwf
    · by_cases hc : (checkEventSender e sender .uiEventAddHandler).1 = true
      · obtain ⟨hcap, hlen, _, hucap, hulen⟩ := hwf
        simp only [hf, hn, hc, if_false, Bool.not_true, Bool.false_eq_true]
        unfold WellFormed
        simp only
        have hgrow : (if e.len ≥ e.cap then
            uiprivRealloc zeroHandler e.handlers e.cap (e.cap + nGrow)
            else e.handlers).length = (if e.len ≥ e.cap then e.cap + nGrow else e.cap) := by
          by_cases hg : e.len ≥ e.cap
          · simp [hg, uiprivRealloc, hcap]
          · simp [hg, hcap]
        have hroom : e.len + 1 ≤ (if e.len ≥ e.cap then e.cap + nGrow else e.cap) := by
          by_cases hg : e.len ≥ e.cap
          · simp [hg, nGrow]; omega
          · simp [hg]; omega
        refine ⟨?_, hroom, ?_, hucap, ?_⟩
        · rw [qsort_length]
          simp only [List.length_set]
          exact hgrow
        · rw [take_qsort _ _ (by simp only [List.length_set]; rw [hgrow]; exact hroom)]
          rw [List.pairwise_map]
          exact sortHandlers_sorted _
        · by_cases hp : e.unusedIDsLen > 0
          · simp [hp]; omega
          · simp [hp]; omega
      · simpa [hf, hn, hc] using hwf

/-- The move made by `uiEventDeleteHandler` keeps the size of the array and
leaves, in the first `len - 1` slots, the handler sequence without slot `i`. -/
theorem memmove_delete (hs : List handler) (len i : Nat) (hi : i < len)
    (hlen : len ≤ hs.length) :
    (memmove hs i (i + 1) (len - 1 - i)).length = hs.length ∧
    (memmove hs i (i + 1) (len - 1 - i)).take (len - 1) = (hs.take len).eraseIdx i := by
  constructor
  · simp [memmove]
    omega
  · have h1 : memmove hs i (i + 1) (len - 1 - i) =
        (hs.take i ++ (hs.drop (i + 1)).take (len - 1 - i)) ++ hs.drop (i + (len - 1 - i)) := rfl
    rw [h1, List.take_left' (by simp; omega), List.eraseIdx_eq_take_drop_succ,
      List.take_take, List.drop_take]
    have e1 : min i len = i := by omega
    have e2 : len - (i + 1) = len - 1 - i := by omega
    rw [e1, e2]

/-- A removal keeps a well-formed registry well-formed. -/
theorem wellFormed_delete (e : uiEvent) (id : Int) (hwf : WellFormed e) :
    WellFormed (uiEventDeleteHandler e id).event := by
  unfold uiEventDeleteHandler
  by_cases hf : e.firing = true
  · simpa [hf] using hwf
  · cases hfind : (findHandler e id .uiEventDeleteHandler).1 with
    | none =>
      rw [findHandler_none e id _ hfind]
      simpa [hf] using hwf
    | some i =>
      obtain ⟨hfull, hi, _⟩ := findHandler_some e id _ i hfind
      obtain ⟨hcap, hlen, hsorted, hucap, hulen⟩ := hwf
      obtain ⟨hmlen, hmtake⟩ := memmove_delete e.handlers e.len i hi (by omega)
      rw [hfull]
      simp only [hf, if_false, Bool.false_eq_true]
      unfold WellFormed
      simp only
      refine ⟨by rw [hmlen]; exact hcap, by omega, ?_, ?_, ?_⟩
      · rw [hmtake]
        exact hsorted.sublist ((List.eraseIdx_sublist _ _).map _)
      · by_cases hg : e.unusedIDsLen ≥ e.unusedIDsCap
        · simp [hg, uiprivRealloc, hucap]
        · simp [hg, hucap]
      · by_cases hg : e.unusedIDsLen ≥ e.unusedIDsCap
        · simp [hg, nGrow]; omega
        · simp [hg]; omega

/-- Blocking or unblocking keeps a well-formed registry well-formed. -/
theorem wellFormed_setBlocked (e : uiEvent) (id : Int) (b : Bool) (hwf : WellFormed e) :
    WellFormed (uiEventSetHandlerBlocked e id b).event := by
  unfold uiEventSetHandlerBlocked
  by_cases hf : e.firing = true
  · simpa [hf] using hwf
  · cases hfind : (findHandler e id .uiEventSetHandlerBlocked).1 with
    | none =>
      rw [findHandler_none e id _ hfind]
      simpa [hf] using hwf
    | some i =>
      obtain ⟨hfull, _, _⟩ := findHandler_some e id _ i hfind
      obtain ⟨hcap, hlen, hsorted, hucap, hulen⟩ := hwf
      rw [hfull]
      simp only [hf, if_false, Bool.false_eq_true]
      unfold WellFormed
      simp only
      refine ⟨by rw [List.length_set]; exact hcap, hlen, ?_, hucap, hulen⟩
      rw [List.map_take] at hsorted ⊢
      exact (map_id_set_blocked e.handlers i b) ▸ hsorted

/-- Every registry reachable from `uiNewEvent` is well-formed. -/
theorem wellFormed_of_reachable (e : uiEvent) (h : Reachable e) : WellFormed e := by
  induction h with
  | new sz options e hnew =>
    unfold uiNewEvent at hnew
    by_cases hsz : options.Size = sz
    · simp [hsz] at hnew
      subst hnew
      simp [WellFormed]
    · simp [hsz] at hnew
  | add e handlerFn sender data stray _ ih => exact wellFormed_add e _ _ _ _ ih
  | delete e id _ ih => exact wellFormed_delete e id ih
  | setBlocked e id b _ ih => exact wellFormed_setBlocked e id b ih


/-! ## Rejected dispatch and construction -/

/-- C13: when the firing flag is already set, or the sender has the wrong shape
for the registry (non-null on a global registry, null on a sender-scoped one),
`uiEventFire` invokes no callback, reports exactly one diagnostic (recursive
fire, or bad sender) and leaves the registry record, firing flag included, as
it was. -/
theorem fire_rejected (e : uiEvent) (sender args : Ptr)
    (hrej : e.firing = true ∨ (e.opts.Global = true ∧ sender ≠ NULL) ∨
      (e.opts.Global = false ∧ sender = NULL)) :
    (uiEventFire e sender args).calls = [] ∧
    (uiEventFire e sender args).event = e ∧
    ((uiEventFire e sender args).errors = [.RecursiveEventFire] ∨
      (uiEventFire e sender args).errors =
        [.BadSenderForEvent (decide (sender = NULL)) e.opts.Global .uiEventFire]) := by
  unfold uiEventFire
  by_cases hf : e.firing = true
  · simp [hf]
  · rcases hrej with h | ⟨hg, hs⟩ | ⟨hg, hs⟩
    · exact absurd h hf
    · simp [hf, checkEventSender, hg, hs]
    · simp [hf, checkEventSender, hg, hs]

/-- A sender-scoped registry is fired with a null sender: nothing is invoked. -/
theorem fire_rejected_witness :
    (uiEventFire ⟨⟨16, false⟩, [⟨1, 7, 5, 0, false⟩], 1, 1, [], 0, 0, false⟩ NULL 3).calls = [] ∧
    (uiEventFire ⟨⟨16, false⟩, [⟨1, 7, 5, 0, false⟩], 1, 1, [], 0, 0, false⟩ NULL 3).event =
      ⟨⟨16, false⟩, [⟨1, 7, 5, 0, false⟩], 1, 1, [], 0, 0, false⟩ :=
  have h := fire_rejected ⟨⟨16, false⟩, [⟨1, 7, 5, 0, false⟩], 1, 1, [], 0, 0, false⟩ NULL 3
    (Or.inr (Or.inr ⟨rfl, rfl⟩))
  ⟨h.1, h.2.1⟩

/-- C16: `uiNewEvent` returns no registry and reports a diagnostic when
`options` is null (null-pointer diagnostic) or when `options.Size` differs from
the expected structure size (wrong-struct-size diagnostic); otherwise it
reports nothing and returns a registry whose options, the global flag among
them, are the ones given, whose handler sequence and free-list are empty and
whose firing flag is false. -/
theorem uiNewEvent_spec (sizeofOptions : Nat) :
    uiNewEvent sizeofOptions none = (none, [.NullPointer .options .uiNewEvent]) ∧
    (∀ o : uiEventOptions, o.Size ≠ sizeofOptions →
      uiNewEvent sizeofOptions (some o) = (none, [.WrongStructSize o.Size])) ∧
    (∀ o : uiEventOptions, o.Size = sizeofOptions →
      ∃ e, uiNewEvent sizeofOptions (some o) = (some e, []) ∧
        e.opts.Global = o.Global ∧ e.opts = o ∧ registered e = [] ∧ freeList e = [] ∧
        e.len = 0 ∧ e.unusedIDsLen = 0 ∧ e.firing = false) := by
  refine ⟨rfl, ?_, ?_⟩
  · intro o ho
    simp [uiNewEvent, ho]
  · intro o ho
    refine ⟨⟨o, [], 0, 0, [], 0, 0, false⟩, ?_, rfl, rfl, rfl, rfl, rfl, rfl, rfl⟩
    simp [uiNewEvent, ho]

/-- With a structure size of `16`: a tag of `8` is refused, a tag of `16` gives
the empty sender-scoped registry. -/
theorem uiNewEvent_spec_witness :
    uiNewEvent 16 (some ⟨8, false⟩) = (none, [.WrongStructSize 8]) ∧
    ∃ e, uiNewEvent 16 (some ⟨16, false⟩) = (some e, []) ∧
      e.opts.Global = false ∧ e.opts = ⟨16, false⟩ ∧ registered e = [] ∧ freeList e = [] ∧
      e.len = 0 ∧ e.unusedIDsLen = 0 ∧ e.firing = false :=
  ⟨(uiNewEvent_spec 16).2.1 ⟨8, false⟩ (by decide),
   (uiNewEvent_spec 16).2.2 ⟨16, false⟩ rfl⟩

/-! ## Removal -/

/-- Writing slot `n` does not change the slots before it. -/
theorem take_set_self {α : Type} (l : List α) (n : Nat) (a : α) :
    (l.set n a).take n = l.take n := by
  rw [List.set_take]
  exact List.set_eq_of_length_le (by simp)

/-- After writing slot `n`, the first `n + 1` slots are the first `n` old ones
followed by the value written. -/
theorem take_succ_set {α : Type} (l : List α) (n : Nat) (a : α) (hn : n < l.length) :
    (l.set n a).take (n + 1) = l.take n ++ [a] := by
  rw [List.take_succ, take_set_self]
  simp [hn]

/-- Growing an array leaves the slots it had in place. -/
theorem take_uiprivRealloc {α : Type} (zero : α) (l : List α) (n k : Nat) (hn : n ≤ l.length) :
    (uiprivRealloc zero l l.length (l.length + k)).take n = l.take n ∧
    (uiprivRealloc zero l l.length (l.length + k)).length = l.length + k := by
  unfold uiprivRealloc
  rw [List.take_length]
  constructor
  · exact List.take_append_of_le_length hn
  · simp

/-- What `uiEventDeleteHandler` does when the lookup finds slot `i` in a
well-formed registry: slot `i` leaves the handler sequence and the id is
appended to the free-list. -/
theorem delete_found (e : uiEvent) (id : Int) (i : Nat)
    (hwf : WellFormed e) (hnf : e.firing = false)
    (hs : findHandler e id .uiEventDeleteHandler = (some i, [])) :
    registered (uiEventDeleteHandler e id).event = (registered e).eraseIdx i ∧
    (uiEventDeleteHandler e id).event.len = e.len - 1 ∧
    freeList (uiEventDeleteHandler e id).event = freeList e ++ [id] ∧
    (uiEventDeleteHandler e id).event.opts = e.opts ∧
    (uiEventDeleteHandler e id).errors = [] := by
  obtain ⟨hcap, hlen, _, hucap, hulen⟩ := hwf
  have hi : i < e.len := (findHandler_some e id _ i (by rw [hs])).2.1
  obtain ⟨_, hmtake⟩ := memmove_delete e.handlers e.len i hi (by omega)
  obtain ⟨hU, hUlen, _, hUopts⟩ := delete_found_freeList e id i hnf hs
  refine ⟨?_, ?_, ?_, hUopts, ?_⟩
  · unfold registered
    simp only [uiEventDeleteHandler, hnf, hs, Bool.false_eq_true, if_false]
    exact hmtake
  · simp [uiEventDeleteHandler, hnf, hs]
  · unfold freeList
    rw [hU, hUlen]
    by_cases hfull : e.unusedIDsLen ≥ e.unusedIDsCap
    · have heq : e.unusedIDsLen = e.unusedIDs.length := by omega
      obtain ⟨hg1, hg2⟩ := take_uiprivRealloc (0 : Int) e.unusedIDs e.unusedIDsLen nGrow
        (by omega)
      simp only [hfull, if_true]
      rw [← hucap, take_succ_set _ _ _ (by rw [hg2]; simp [nGrow]; omega), hg1]
    · simp only [hfull, if_false]
      rw [take_succ_set _ _ _ (by omega)]
  · simp [uiEventDeleteHandler, hnf, hs]

/-- C14: on a well-formed non-firing registry (every reachable registry is
well-formed) and for a registered id, `uiEventDeleteHandler` removes one
handler carrying that id from the handler sequence and leaves all other
handlers unchanged and in the same order, so the length goes down by exactly
one, and the free-list afterwards is the previous free-list with the id
appended. -/
theorem delete_removes_handler (e : uiEvent) (id : Int)
    (hwf : WellFormed e) (hnf : e.firing = false) (hreg : id ∈ registeredIds e) :
    ∃ (i : Nat) (h : handler), (registered e)[i]? = some h ∧ h.id = id ∧
      registered (uiEventDeleteHandler e id).event = (registered e).eraseIdx i ∧
      (registered (uiEventDeleteHandler e id).event).length + 1 = (registered e).length ∧
      (uiEventDeleteHandler e id).event.len + 1 = e.len ∧
      freeList (uiEventDeleteHandler e id).event = freeList e ++ [id] := by
  obtain ⟨i, hi⟩ := findHandler_registered e id .uiEventDeleteHandler hwf hreg
  obtain ⟨_, hilen, p, hp, hpid⟩ := findHandler_some e id _ i (by rw [hi])
  obtain ⟨hreg2, hlen2, hfree, _, _⟩ := delete_found e id i hwf hnf hi
  obtain ⟨hcap, hlen, _, _, _⟩ := hwf
  have hrlen : (registered e).length = e.len := by
    unfold registered
    simp
    omega
  refine ⟨i, p, ?_, hpid, hreg2, ?_, by omega, hfree⟩
  · unfold registered
    rw [List.getElem?_take_of_lt hilen]
    exact hp
  · rw [hreg2, List.length_eraseIdx_of_lt (by omega)]
    omega

/-- A registry holding the ids `1, 2, 3` with the free-list `[9]`: deleting `2`
leaves the handlers `1` and `3` and the free-list `[9, 2]`. -/
theorem delete_removes_handler_witness :
    ∃ (i : Nat) (h : handler),
      (registered ⟨⟨16, false⟩, [⟨1, 7, 5, 0, false⟩, ⟨2, 8, 5, 0, true⟩, ⟨3, 9, 6, 0, false⟩],
        3, 3, [9], 1, 1, false⟩)[i]? = some h ∧ h.id = 2 ∧
      registered (uiEventDeleteHandler
        ⟨⟨16, false⟩, [⟨1, 7, 5, 0, false⟩, ⟨2, 8, 5, 0, true⟩, ⟨3, 9, 6, 0, false⟩],
          3, 3, [9], 1, 1, false⟩ 2).event =
        (registered ⟨⟨16, false⟩,
          [⟨1, 7, 5, 0, false⟩, ⟨2, 8, 5, 0, true⟩, ⟨3, 9, 6, 0, false⟩],
          3, 3, [9], 1, 1, false⟩).eraseIdx i ∧
      (registered (uiEventDeleteHandler
        ⟨⟨16, false⟩, [⟨1, 7, 5, 0, false⟩, ⟨2, 8, 5, 0, true⟩, ⟨3, 9, 6, 0, false⟩],
          3, 3, [9], 1, 1, false⟩ 2).event).length + 1 =
        (registered ⟨⟨16, false⟩,
          [⟨1, 7, 5, 0, false⟩, ⟨2, 8, 5, 0, true⟩, ⟨3, 9, 6, 0, false⟩],
          3, 3, [9], 1, 1, false⟩).length ∧
      (uiEventDeleteHandler
        ⟨⟨16, false⟩, [⟨1, 7, 5, 0, false⟩, ⟨2, 8, 5, 0, true⟩, ⟨3, 9, 6, 0, false⟩],
          3, 3, [9], 1, 1, false⟩ 2).event.len + 1 = 3 ∧
      freeList (uiEventDeleteHandler
        ⟨⟨16, false⟩, [⟨1, 7, 5, 0, false⟩, ⟨2, 8, 5, 0, true⟩, ⟨3, 9, 6, 0, false⟩],
          3, 3, [9], 1, 1, false⟩ 2).event = [9] ++ [2] :=
  delete_removes_handler
    ⟨⟨16, false⟩, [⟨1, 7, 5, 0, false⟩, ⟨2, 8, 5, 0, true⟩, ⟨3, 9, 6, 0, false⟩],
      3, 3, [9], 1, 1, false⟩ 2 (by decide) rfl (by decide)

/-! ## Registration -/

/-- Insertion keeps the elements and adds the new one. -/
theorem sortInsert_perm (h : handler) (l : List handler) : (sortInsert h l).Perm (h :: l) := by
  induction l with
  | nil => exact List.Perm.refl _
  | cons x xs ih =>
    unfold sortInsert
    by_cases hc : handlerCmp h x ≤ 0
    · simp [hc]
    · simp only [hc, if_false]
      exact (List.Perm.cons x ih).trans (List.Perm.swap h x xs)

/-- The sort rearranges its input and nothing else. -/
theorem sortHandlers_perm (l : List handler) : (sortHandlers l).Perm l := by
  induction l with
  | nil => exact List.Perm.refl _
  | cons x xs ih => exact (sortInsert_perm x _).trans (List.Perm.cons x ih)

/-- The slot of the handler array that a registration writes the new handler
into, as it is before the write: a zeroed slot when the array has to grow, the
slot left behind at index `len` otherwise. -/
theorem add_slot_cases (e : uiEvent) (hwf : WellFormed e) :
    ((if e.len ≥ e.cap then uiprivRealloc zeroHandler e.handlers e.cap (e.cap + nGrow)
      else e.handlers).getD e.len zeroHandler) =
      if e.len ≥ e.cap then zeroHandler else e.handlers.getD e.len zeroHandler := by
  obtain ⟨hcap, hlen, _, _, _⟩ := hwf
  by_cases hg : e.len ≥ e.cap
  · have htake : e.handlers.take e.cap = e.handlers := by
      rw [← hcap]
      exact List.take_length _
    rw [if_pos hg, if_pos hg]
    unfold uiprivRealloc
    rw [htake, List.getD_eq_getElem?_getD, List.getElem?_append_right (by omega)]
    rw [List.getElem?_replicate]
    split <;> rfl
  · rw [if_neg hg, if_neg hg]

/-- What a successful `uiEventAddHandler` does to a well-formed registry: the
handler sequence afterwards is the sorted previous sequence with the new
handler appended; the new handler carries the returned id, the callback, the
sender and the data given, and the `blocked` flag that its slot held. -/
theorem add_ok (e : uiEvent) (handlerFn sender data : Ptr) (stray : Int)
    (hwf : WellFormed e) (hnf : e.firing = false) (hfn : handlerFn ≠ NULL)
    (hs : senderMatches e sender) :
    registered (uiEventAddHandler e handlerFn sender data stray).event =
      sortHandlers (registered e ++
        [⟨(uiEventAddHandler e handlerFn sender data stray).ret, handlerFn, sender, data,
          (if e.len ≥ e.cap then zeroHandler
            else e.handlers.getD e.len zeroHandler).blocked⟩]) ∧
    (uiEventAddHandler e handlerFn sender data stray).event.len = e.len + 1 ∧
    (uiEventAddHandler e handlerFn sender data stray).event.opts = e.opts ∧
    (uiEventAddHandler e handlerFn sender data stray).event.firing = false ∧
    (uiEventAddHandler e handlerFn sender data stray).errors = [] := by
  have hslot := add_slot_cases e hwf
  obtain ⟨hcap, hlen, _, _, _⟩ := hwf
  have hchk := checkEventSender_ok e sender .uiEventAddHandler hs
  have hgrow : ∀ hs1 : List handler,
      hs1 = (if e.len ≥ e.cap then uiprivRealloc zeroHandler e.handlers e.cap (e.cap + nGrow)
        else e.handlers) → e.len < hs1.length ∧ hs1.take e.len = e.handlers.take e.len := by
    intro hs1 h1
    by_cases hg : e.len ≥ e.cap
    · simp only [hg, if_true] at h1
      obtain ⟨hg1, hg2⟩ := take_uiprivRealloc zeroHandler e.handlers e.len nGrow (by omega)
      rw [hcap] at hg1 hg2
      rw [h1]
      exact ⟨by rw [hg2]; simp [nGrow]; omega, hg1⟩
    · simp only [hg, if_false] at h1
      rw [h1]
      exact ⟨by omega, rfl⟩
  obtain ⟨hlt, htake⟩ := hgrow _ rfl
  refine ⟨?_, ?_, ?_, ?_, ?_⟩
  · unfold registered
    simp only [uiEventAddHandler, hnf, hfn, hchk, Bool.false_eq_true, if_false, Bool.not_true]
    rw [take_qsort _ _ (by simp only [List.length_set]; omega), List.set_set,
      take_succ_set _ _ _ hlt, htake, hslot]
  · simp [uiEventAddHandler, hnf, hfn, hchk]
  · simp [uiEventAddHandler, hnf, hfn, hchk]
  · simp [uiEventAddHandler, hnf, hfn, hchk]
  · simp [uiEventAddHandler, hnf, hfn, hchk]

/-- C15: on a well-formed non-firing registry (every reachable registry is
well-formed), for a non-null callback `f`, a sender `s` of the right shape and
data `d`, after `uiEventAddHandler` returns id `r` the handler sequence is a
permutation of the previous handlers, each unchanged, plus exactly one new
handler with id `r`, callback `f`, sender `s` and data `d`; the length grows by
exactly one. -/
theorem add_appends_handler (e : uiEvent) (f s d : Ptr) (stray : Int)
    (hwf : WellFormed e) (hnf : e.firing = false) (hfn : f ≠ NULL)
    (hs : senderMatches e s) :
    ∃ b : Bool,
      (registered (uiEventAddHandler e f s d stray).event).Perm
        (registered e ++ [⟨(uiEventAddHandler e f s d stray).ret, f, s, d, b⟩]) ∧
      (registered (uiEventAddHandler e f s d stray).event).length =
        (registered e).length + 1 ∧
      (uiEventAddHandler e f s d stray).event.len = e.len + 1 := by
  obtain ⟨hreg, hlen, _, _, _⟩ := add_ok e f s d stray hwf hnf hfn hs
  refine ⟨(if e.len ≥ e.cap then zeroHandler else e.handlers.getD e.len zeroHandler).blocked,
    ?_, ?_, hlen⟩
  · rw [hreg]
    exact sortHandlers_perm _
  · rw [hreg, sortHandlers_length]
    simp

/-- A registry holding the ids `1, 3` with the free-list `[2]`: a registration
returns `2` and the handler sequence becomes the ids `1, 2, 3`. -/
theorem add_appends_handler_witness :
    ∃ b : Bool,
      (registered (uiEventAddHandler
        ⟨⟨16, false⟩, [⟨1, 7, 5, 0, false⟩, ⟨3, 9, 6, 0, false⟩], 2, 2, [2], 1, 1, false⟩
        8 5 80 0).event).Perm
        ([⟨1, 7, 5, 0, false⟩, ⟨3, 9, 6, 0, false⟩] ++ [⟨2, 8, 5, 80, b⟩]) ∧
      (registered (uiEventAddHandler
        ⟨⟨16, false⟩, [⟨1, 7, 5, 0, false⟩, ⟨3, 9, 6, 0, false⟩], 2, 2, [2], 1, 1, false⟩
        8 5 80 0).event).length = 2 + 1 ∧
      (uiEventAddHandler
        ⟨⟨16, false⟩, [⟨1, 7, 5, 0, false⟩, ⟨3, 9, 6, 0, false⟩], 2, 2, [2], 1, 1, false⟩
        8 5 80 0).event.len = 2 + 1 :=
  add_appends_handler
    ⟨⟨16, false⟩, [⟨1, 7, 5, 0, false⟩, ⟨3, 9, 6, 0, false⟩], 2, 2, [2], 1, 1, false⟩
    8 5 80 0 (by decide) rfl (by decide) (by decide)

/-! ## Blocking and delivery -/

/-- The invocations of an accepted `uiEventFire`, as a filter of the handler
sequence. -/
theorem fire_calls (e : uiEvent) (sender args : Ptr)
    (hnf : e.firing = false) (hs : senderMatches e sender) :
    (uiEventFire e sender args).calls =
      ((registered e).filter (fun h => h.sender == sender && !h.blocked)).map
        (fun h => (⟨h.f, sender, args, h.data⟩ : Invocation)) ∧
    (uiEventFire e sender args).errors = [] := by
  have hchk := checkEventSender_ok e sender .uiEventFire hs
  constructor
  · simp only [uiEventFire, hnf, hchk, fireLoop_eq, registered]
    rfl
  · simp [uiEventFire, hnf, hchk]

/-- A slot overwritten with a value the filter rejects counts as removed. -/
theorem filter_set_rejected {α : Type} (p : α → Bool) (l : List α) (i : Nat) (x : α)
    (hi : i < l.length) (hx : p x = false) :
    (l.set i x).filter p = (l.eraseIdx i).filter p := by
  rw [List.set_eq_take_append_cons_drop, if_pos hi, List.eraseIdx_eq_take_drop_succ,
    List.filter_append, List.filter_append, List.filter_cons, hx]
  simp

/-- C11: on a well-formed non-firing registry (every reachable registry is
well-formed), for a registered id and a boolean `b`, after
`uiEventSetHandlerBlocked(e, id, b)` the handler sequence is the previous one
with the `blocked` flag of one handler carrying the id set to `b` and
everything else (ids, callbacks, senders, user data, the other handlers'
flags, the length, the free-list) unchanged; `uiEventHandlerBlocked(e, id)`
then returns `b` without a diagnostic; and when `b` is true `uiEventFire`
makes the invocations of the previous handler sequence without that handler:
it does not invoke it and invokes every other handler as before. -/
theorem setBlocked_suppresses_delivery (e : uiEvent) (id : Int) (b : Bool)
    (hwf : WellFormed e) (hnf : e.firing = false) (hreg : id ∈ registeredIds e) :
    ∃ (i : Nat) (h : handler), (registered e)[i]? = some h ∧ h.id = id ∧
      registered (uiEventSetHandlerBlocked e id b).event =
        (registered e).set i { h with blocked := b } ∧
      (uiEventSetHandlerBlocked e id b).event.len = e.len ∧
      freeList (uiEventSetHandlerBlocked e id b).event = freeList e ∧
      uiEventHandlerBlocked (uiEventSetHandlerBlocked e id b).event id = (b, []) ∧
      (b = true → ∀ sender args : Ptr, senderMatches e sender →
        (uiEventFire (uiEventSetHandlerBlocked e id b).event sender args).calls =
          (((registered e).eraseIdx i).filter (fun h => h.sender == sender && !h.blocked)).map
            (fun h => (⟨h.f, sender, args, h.data⟩ : Invocation))) := by
  obtain ⟨i, hi⟩ := findHandler_registered e id .uiEventSetHandlerBlocked hwf hreg
  obtain ⟨_, hilen, p, hp, hpid⟩ := findHandler_some e id _ i (by rw [hi])
  obtain ⟨hcap, hlen, _, _, _⟩ := hwf
  have hget : e.handlers.getD i zeroHandler = p := by
    simp [List.getD_eq_getElem?_getD, hp]
  have hev := setBlocked_found e id b i hnf hi
  rw [hget] at hev
  have hislt : i < e.handlers.length := by omega
  have hregp : (registered e)[i]? = some p := by
    unfold registered
    rw [List.getElem?_take_of_lt hilen]
    exact hp
  have hreg2 : registered (uiEventSetHandlerBlocked e id b).event =
      (registered e).set i { p with blocked := b } := by
    rw [hev]
    unfold registered
    exact List.set_take
  have hq : findHandler (uiEventSetHandlerBlocked e id b).event id .uiEventHandlerBlocked =
      (some i, []) := by
    have hc := findHandler_congr e (uiEventSetHandlerBlocked e id b).event id
      .uiEventHandlerBlocked (by rw [hev]) (by
        rw [hev, ← hget]
        exact map_id_set_blocked e.handlers i b)
    rw [hc]
    exact (findHandler_some e id .uiEventHandlerBlocked i (by
      rw [findHandler_fst_func e id .uiEventHandlerBlocked .uiEventSetHandlerBlocked, hi])).1
  refine ⟨i, p, hregp, hpid, hreg2, by rw [hev], by rw [hev]; rfl, ?_, ?_⟩
  · unfold uiEventHandlerBlocked
    rw [hq]
    simp only [hev]
    simp [List.getD_eq_getElem?_getD, hislt]
  · intro hb sender args hs
    subst hb
    have hnf2 : (uiEventSetHandlerBlocked e id true).event.firing = false := by
      rw [hev]; exact hnf
    have hs2 : senderMatches (uiEventSetHandlerBlocked e id true).event sender := by
      unfold senderMatches at hs ⊢
      rw [hev]
      exact hs
    rw [(fire_calls _ sender args hnf2 hs2).1, hreg2]
    have hrlen : i < (registered e).length := by
      rcases List.getElem?_eq_some_iff.mp hregp with ⟨h, _⟩
      exact h
    rw [filter_set_rejected _ _ _ _ hrlen (by simp)]

/-- A registry holding the ids `1, 2, 3`, all delivered to sender `5`: after
blocking `2` the query answers true and firing invokes the callbacks of `1`
and `3` only. -/
theorem setBlocked_suppresses_delivery_witness :
    uiEventHandlerBlocked (uiEventSetHandlerBlocked
      ⟨⟨16, false⟩, [⟨1, 7, 5, 70, false⟩, ⟨2, 8, 5, 80, false⟩, ⟨3, 9, 5, 90, false⟩],
        3, 3, [], 0, 0, false⟩ 2 true).event 2 = (true, []) ∧
    (uiEventFire (uiEventSetHandlerBlocked
      ⟨⟨16, false⟩, [⟨1, 7, 5, 70, false⟩, ⟨2, 8, 5, 80, false⟩, ⟨3, 9, 5, 90, false⟩],
        3, 3, [], 0, 0, false⟩ 2 true).event 5 11).calls = [⟨7, 5, 11, 70⟩, ⟨9, 5, 11, 90⟩] := by
  obtain ⟨i, h, _, _, _, _, _, hq, _⟩ := setBlocked_suppresses_delivery
    ⟨⟨16, false⟩, [⟨1, 7, 5, 70, false⟩, ⟨2, 8, 5, 80, false⟩, ⟨3, 9, 5, 90, false⟩],
      3, 3, [], 0, 0, false⟩ 2 true (by decide) rfl (by decide)
  exact ⟨hq, by decide⟩

/-! ## Invariants of reachable registries -/

/-- C17: in every registry reachable from `uiNewEvent` by `uiEventAddHandler`,
`uiEventDeleteHandler` and `uiEventSetHandlerBlocked` calls the handler
sequence is in ascending order of id (equal ids may stand side by side), and
this is enough for `findHandler`: its binary search finds every id that the
handler sequence holds. -/
theorem reachable_sorted (e : uiEvent) (hreach : Reachable e) :
    (registeredIds e).Pairwise (fun a b => a ≤ b) ∧
    ∀ id ∈ registeredIds e, ∀ func : Func, ∃ i, findHandler e id func = (some i, []) := by
  have hwf := wellFormed_of_reachable e hreach
  exact ⟨hwf.2.2.1, fun id hid func => findHandler_registered e id func hwf hid⟩

/-- The registry after two registrations on a fresh global registry is
reachable, and its ids are in ascending order. -/
theorem reachable_sorted_witness :
    Reachable (uiEventAddHandler (uiEventAddHandler (freshEvent true) 7 NULL 0 4).event
      8 NULL 0 0).event ∧
    (registeredIds (uiEventAddHandler (uiEventAddHandler (freshEvent true) 7 NULL 0 4).event
      8 NULL 0 0).event).Pairwise (fun a b => a ≤ b) :=
  have hr : Reachable (uiEventAddHandler (uiEventAddHandler (freshEvent true) 7 NULL 0 4).event
      8 NULL 0 0).event :=
    Reachable.add _ 8 NULL 0 0 (Reachable.add _ 7 NULL 0 4
      (Reachable.new 16 ⟨16, true⟩ (freshEvent true) rfl))
  ⟨hr, (reachable_sorted _ hr).1⟩

/-- The registry record after `uiEventFire` is the record before it: the
firing flag is set for the loop only. -/
theorem fire_event (e : uiEvent) (sender args : Ptr) :
    (uiEventFire e sender args).event = e := by
  unfold uiEventFire
  by_cases hf : e.firing = true
  · simp [hf]
  · by_cases hc : (checkEventSender e sender .uiEventFire).1 = true
    · simp only [hf, hc, Bool.false_eq_true, if_false, Bool.not_true]
      cases e
      simp_all
    · simp [hf, hc]

/-- Calls of `uiEventFire` reach no registry that the mutators do not reach. -/
theorem reachable_of_reachablePublic (e : uiEvent) (h : ReachablePublic e) : Reachable e := by
  induction h with
  | new sz options e hnew => exact Reachable.new sz options e hnew
  | add e handlerFn sender data stray _ ih => exact Reachable.add e _ _ _ _ ih
  | delete e id _ ih => exact Reachable.delete e id ih
  | setBlocked e id b _ ih => exact Reachable.setBlocked e id b ih
  | fire e sender args _ ih => rw [fire_event]; exact ih

/-- A registration that is not refused was given a sender of the right shape. -/
theorem senderMatches_of_check (e : uiEvent) (sender : Ptr) (func : Func)
    (h : (checkEventSender e sender func).1 = true) : senderMatches e sender := by
  unfold senderMatches
  unfold checkEventSender at h
  by_cases hg : e.opts.Global = true
  · by_cases hs : sender = NULL
    · simp [hg, hs]
    · simp [hg, hs] at h
  · by_cases hs : sender = NULL
    · simp [hg, hs] at h
    · simp [hg, hs]

/-- A refused registration leaves the registry record as it was. -/
theorem add_refused (e : uiEvent) (handlerFn sender data : Ptr) (stray : Int)
    (h : ¬ (e.firing = false ∧ handlerFn ≠ NULL ∧
      (checkEventSender e sender .uiEventAddHandler).1 = true)) :
    (uiEventAddHandler e handlerFn sender data stray).event = e ∧
    (uiEventAddHandler e handlerFn sender data stray).ret = 0 := by
  unfold uiEventAddHandler
  by_cases hf : e.firing = true
  · simp [hf]
  · by_cases hn : handlerFn = NULL
    · simp [hf, hn]
    · by_cases hc : (checkEventSender e sender .uiEventAddHandler).1 = true
      · exact absurd ⟨by simpa using hf, hn, hc⟩ h
      · simp [hf, hn, hc]

/-- In every registry reachable through the mutators each registered handler
has a null sender exactly when the registry is global. -/
theorem senderShape_of_reachable (e : uiEvent) (hreach : Reachable e) :
    ∀ h ∈ registered e, (h.sender = NULL ↔ e.opts.Global = true) := by
  induction hreach with
  | new sz options e hnew =>
    unfold uiNewEvent at hnew
    by_cases hsz : options.Size = sz
    · simp [hsz] at hnew
      subst hnew
      simp [registered]
    · simp [hsz] at hnew
  | add e handlerFn sender data stray hr ih =>
    have hwf := wellFormed_of_reachable e hr
    by_cases hok : e.firing = false ∧ handlerFn ≠ NULL ∧
        (checkEventSender e sender .uiEventAddHandler).1 = true
    · obtain ⟨hnf, hfn, hc⟩ := hok
      have hs := senderMatches_of_check e sender _ hc
      obtain ⟨hreg, _, hopts, _, _⟩ := add_ok e handlerFn sender data stray hwf hnf hfn hs
      intro h hh
      rw [hreg, (sortHandlers_perm _).mem_iff, List.mem_append, List.mem_singleton] at hh
      rw [hopts]
      rcases hh with hh | hh
      · exact ih h hh
      · subst hh
        unfold senderMatches at hs
        exact ⟨fun h0 => hs.mpr h0, fun hg => hs.mp hg⟩
    · rw [(add_refused e handlerFn sender data stray hok).1]
      exact ih
  | delete e id hr ih =>
    have hwf := wellFormed_of_reachable e hr
    by_cases hf : e.firing = true
    · have : (uiEventDeleteHandler e id).event = e := by simp [uiEventDeleteHandler, hf]
      rw [this]; exact ih
    · cases hfind : (findHandler e id .uiEventDeleteHandler).1 with
      | none =>
        have hnone := findHandler_none e id _ hfind
        have : (uiEventDeleteHandler e id).event = e := by
          simp [uiEventDeleteHandler, hf, hnone]
        rw [this]; exact ih
      | some i =>
        have hfull := (findHandler_some e id _ i hfind).1
        obtain ⟨hreg, _, _, hopts, _⟩ := delete_found e id i hwf (by simpa using hf) hfull
        intro h hh
        rw [hreg] at hh
        rw [hopts]
        exact ih h ((List.eraseIdx_sublist _ _).subset hh)
  | setBlocked e id b hr ih =>
    by_cases hf : e.firing = true
    · have : (uiEventSetHandlerBlocked e id b).event = e := by
        simp [uiEventSetHandlerBlocked, hf]
      rw [this]; exact ih
    · cases hfind : (findHandler e id .uiEventSetHandlerBlocked).1 with
      | none =>
        have hnone := findHandler_none e id _ hfind
        have : (uiEventSetHandlerBlocked e id b).event = e := by
          simp [uiEventSetHandlerBlocked, hf, hnone]
        rw [this]; exact ih
      | some i =>
        obtain ⟨hfull, hilen, p, hp, _⟩ := findHandler_some e id _ i hfind
        have hev := setBlocked_found e id b i (by simpa using hf) hfull
        have hget : e.handlers.getD i zeroHandler = p := by
          simp [List.getD_eq_getElem?_getD, hp]
        have hpmem : p ∈ registered e := by
          unfold registered
          rw [List.mem_iff_getElem?]
          exact ⟨i, by rw [List.getElem?_take_of_lt hilen]; exact hp⟩
        rw [hget] at hev
        intro h hh
        rw [hev] at hh ⊢
        unfold registered at hh
        simp only at hh
        rw [List.set_take] at hh
        rcases List.mem_or_eq_of_mem_set hh with hh | hh
        · exact ih h hh
        · subst hh
          exact ih p hpmem

/-- C18: in every registry reachable from `uiNewEvent` by any finite sequence
of public operations (registration, removal, blocking, firing) every
registered handler has a null sender if and only if the registry's global flag
is set. -/
theorem reachable_sender_shape (e : uiEvent) (hreach : ReachablePublic e) :
    ∀ h ∈ registered e, (h.sender = NULL ↔ e.opts.Global = true) :=
  senderShape_of_reachable e (reachable_of_reachablePublic e hreach)

/-- A sender-scoped registry after a registration for sender `5`, a refused
registration with a null sender and a fire: its one handler has the non-null
sender `5`. -/
theorem reachable_sender_shape_witness :
    ReachablePublic (uiEventFire (uiEventAddHandler
      (uiEventAddHandler (freshEvent false) 7 5 0 0).event 8 NULL 0 0).event 5 0).event ∧
    ∀ h ∈ registered (uiEventFire (uiEventAddHandler
      (uiEventAddHandler (freshEvent false) 7 5 0 0).event 8 NULL 0 0).event 5 0).event,
      (h.sender = NULL ↔ (uiEventFire (uiEventAddHandler
        (uiEventAddHandler (freshEvent false) 7 5 0 0).event 8 NULL 0 0).event
        5 0).event.opts.Global = true) :=
  have hr : ReachablePublic (uiEventFire (uiEventAddHandler
      (uiEventAddHandler (freshEvent false) 7 5 0 0).event 8 NULL 0 0).event 5 0).event :=
    ReachablePublic.fire _ 5 0 (ReachablePublic.add _ 8 NULL 0 0
      (ReachablePublic.add _ 7 5 0 0 (ReachablePublic.new 16 ⟨16, false⟩ (freshEvent false) rfl)))
  ⟨hr, reachable_sender_shape _ hr⟩

/-! ## The sender-scoped scenario -/

/-- The first registration on a fresh registry: the array grows to `nGrow`
zeroed slots and slot `0` receives the new handler, unblocked. -/
theorem add_fresh_event (o : uiEventOptions) (handlerFn sender data : Ptr) (stray : Int)
    (hfn : handlerFn ≠ NULL)
    (hs : senderMatches ⟨o, [], 0, 0, [], 0, 0, false⟩ sender) :
    (uiEventAddHandler ⟨o, [], 0, 0, [], 0, 0, false⟩ handlerFn sender data stray).event =
      ⟨o, ⟨wrapInt (stray + 1), handlerFn, sender, data, false⟩ ::
        List.replicate 31 zeroHandler, 1, 32, [], 0, 0, false⟩ := by
  have hchk := checkEventSender_ok _ sender .uiEventAddHandler hs
  simp only [uiEventAddHandler, hfn, hchk, Bool.false_eq_true, if_false, Bool.not_true]
  rfl

/-- C12: on a freshly created sender-scoped registry, after registering
callback `A` with sender `S1` and callback `B` with sender `S2` (the senders
distinct and non-null, the callbacks non-null), `uiEventFire` with sender `S1`
invokes `A` only, with sender `S2` invokes `B` only, and with any other
non-null sender `S3` invokes nothing; none of the three reports a diagnostic. -/
theorem sender_scoped_scenario (sizeofOptions : Nat) (o : uiEventOptions) (e : uiEvent)
    (hnew : (uiNewEvent sizeofOptions (some o)).1 = some e) (hscoped : o.Global = false)
    (A B S1 S2 S3 dA dB args : Ptr) (strayA strayB : Int)
    (hA : A ≠ NULL) (hB : B ≠ NULL) (h1 : S1 ≠ NULL) (h2 : S2 ≠ NULL) (h3 : S3 ≠ NULL)
    (h12 : S1 ≠ S2) (h31 : S3 ≠ S1) (h32 : S3 ≠ S2) :
    (uiEventFire (uiEventAddHandler (uiEventAddHandler e A S1 dA strayA).event
      B S2 dB strayB).event S1 args).calls = [⟨A, S1, args, dA⟩] ∧
    (uiEventFire (uiEventAddHandler (uiEventAddHandler e A S1 dA strayA).event
      B S2 dB strayB).event S2 args).calls = [⟨B, S2, args, dB⟩] ∧
    (uiEventFire (uiEventAddHandler (uiEventAddHandler e A S1 dA strayA).event
      B S2 dB strayB).event S3 args).calls = [] ∧
    (uiEventFire (uiEventAddHandler (uiEventAddHandler e A S1 dA strayA).event
      B S2 dB strayB).event S1 args).errors = [] ∧
    (uiEventFire (uiEventAddHandler (uiEventAddHandler e A S1 dA strayA).event
      B S2 dB strayB).event S2 args).errors = [] ∧
    (uiEventFire (uiEventAddHandler (uiEventAddHandler e A S1 dA strayA).event
      B S2 dB strayB).event S3 args).errors = [] := by
  have he : e = ⟨o, [], 0, 0, [], 0, 0, false⟩ := by
    unfold uiNewEvent at hnew
    by_cases hsz : o.Size = sizeofOptions
    · simp [hsz] at hnew
      exact hnew.symm
    · simp [hsz] at hnew
  subst he
  have hm : ∀ (ev : uiEvent) (S : Ptr), ev.opts = o → S ≠ NULL → senderMatches ev S := by
    intro ev S hopts hS
    unfold senderMatches
    rw [hopts, hscoped]
    simp [hS]
  have hwf0 : WellFormed ⟨o, [], 0, 0, [], 0, 0, false⟩ := by simp [WellFormed]
  have hev1 := add_fresh_event o A S1 dA strayA hA (hm _ S1 rfl h1)
  have hwf1 := wellFormed_add _ A S1 dA strayA hwf0
  rw [hev1] at hwf1 ⊢
  obtain ⟨hreg, _, hopts, hnf2, _⟩ := add_ok _ B S2 dB strayB hwf1 rfl hB (hm _ S2 rfl h2)
  have hret : (uiEventAddHandler ⟨o, ⟨wrapInt (strayA + 1), A, S1, dA, false⟩ ::
      List.replicate 31 zeroHandler, 1, 32, [], 0, 0, false⟩ B S2 dB strayB).ret = 0 :=
    (add_nonempty_ret_zero _ B S2 dB strayB rfl hB (hm _ S2 rfl h2) rfl Nat.one_ne_zero).1
  rw [hret] at hreg
  have hreg2 : registered (uiEventAddHandler ⟨o, ⟨wrapInt (strayA + 1), A, S1, dA, false⟩ ::
      List.replicate 31 zeroHandler, 1, 32, [], 0, 0, false⟩ B S2 dB strayB).event =
      sortHandlers [⟨wrapInt (strayA + 1), A, S1, dA, false⟩, ⟨0, B, S2, dB, false⟩] := by
    rw [hreg]
    rfl
  have hf := fun S hS => fire_calls _ S args hnf2 (hm _ S hopts hS)
  have h21 : S2 ≠ S1 := fun h => h12 h.symm
  refine ⟨?_, ?_, ?_, (hf S1 h1).2, (hf S2 h2).2, (hf S3 h3).2⟩
  · rw [(hf S1 h1).1, hreg2]
    by_cases hc : handlerCmp ⟨wrapInt (strayA + 1), A, S1, dA, false⟩ ⟨0, B, S2, dB, false⟩ ≤ 0
    · simp [sortHandlers, sortInsert, hc, h21]
    · simp [sortHandlers, sortInsert, hc, h21]
  · rw [(hf S2 h2).1, hreg2]
    by_cases hc : handlerCmp ⟨wrapInt (strayA + 1), A, S1, dA, false⟩ ⟨0, B, S2, dB, false⟩ ≤ 0
    · simp [sortHandlers, sortInsert, hc, h12]
    · simp [sortHandlers, sortInsert, hc, h12]
  · rw [(hf S3 h3).1, hreg2]
    have h13 : S1 ≠ S3 := fun h => h31 h.symm
    have h23 : S2 ≠ S3 := fun h => h32 h.symm
    by_cases hc : handlerCmp ⟨wrapInt (strayA + 1), A, S1, dA, false⟩ ⟨0, B, S2, dB, false⟩ ≤ 0
    · simp [sortHandlers, sortInsert, hc, h13, h23]
    · simp [sortHandlers, sortInsert, hc, h13, h23]

/-- Callbacks `7` and `8` registered for the senders `5` and `6` on a fresh
sender-scoped registry: firing for `5` invokes `7`, for `6` invokes `8`, for
`9` nothing. -/
theorem sender_scoped_scenario_witness :
    (uiEventFire (uiEventAddHandler (uiEventAddHandler (freshEvent false) 7 5 70 0).event
      8 6 80 0).event 5 11).calls = [⟨7, 5, 11, 70⟩] ∧
    (uiEventFire (uiEventAddHandler (uiEventAddHandler (freshEvent false) 7 5 70 0).event
      8 6 80 0).event 6 11).calls = [⟨8, 6, 11, 80⟩] ∧
    (uiEventFire (uiEventAddHandler (uiEventAddHandler (freshEvent false) 7 5 70 0).event
      8 6 80 0).event 9 11).calls = [] :=
  have h := sender_scoped_scenario 16 ⟨16, false⟩ (freshEvent false) rfl rfl
    7 8 5 6 9 70 80 11 0 0 (by decide) (by decide) (by decide) (by decide) (by decide)
    (by decide) (by decide) (by decide)
  ⟨h.1, h.2.1, h.2.2.1⟩

/-! ## Reused slots -/

/-- C19 (evaluation of the code): two reachable registries in which a
successful registration produces a handler that is blocked from the start.
First: a global registry whose only handler (id `1`) was blocked and then
deleted; the next registration returns `1`, `uiEventHandlerBlocked` answers
true for it and `uiEventFire` invokes nothing. Second: the handlers `0` and `1`,
of which `1` was blocked and `0` then deleted, so that `1` was shifted down;
the next registration returns `0` and that handler is blocked as well. -/
theorem new_handler_inherits_blocked :
    (uiEventAddHandler (uiEventDeleteHandler (uiEventSetHandlerBlocked
      (uiEventAddHandler (freshEvent true) 7 NULL 0 0).event 1 true).event 1).event
      8 NULL 0 0).ret = 1 ∧
    (uiEventAddHandler (uiEventDeleteHandler (uiEventSetHandlerBlocked
      (uiEventAddHandler (freshEvent true) 7 NULL 0 0).event 1 true).event 1).event
      8 NULL 0 0).errors = [] ∧
    registered (uiEventAddHandler (uiEventDeleteHandler (uiEventSetHandlerBlocked
      (uiEventAddHandler (freshEvent true) 7 NULL 0 0).event 1 true).event 1).event
      8 NULL 0 0).event = [⟨1, 8, NULL, 0, true⟩] ∧
    uiEventHandlerBlocked (uiEventAddHandler (uiEventDeleteHandler (uiEventSetHandlerBlocked
      (uiEventAddHandler (freshEvent true) 7 NULL 0 0).event 1 true).event 1).event
      8 NULL 0 0).event 1 = (true, []) ∧
    (uiEventFire (uiEventAddHandler (uiEventDeleteHandler (uiEventSetHandlerBlocked
      (uiEventAddHandler (freshEvent true) 7 NULL 0 0).event 1 true).event 1).event
      8 NULL 0 0).event NULL 0).calls = [] ∧
    (uiEventAddHandler (uiEventDeleteHandler (uiEventSetHandlerBlocked
      (uiEventAddHandler (uiEventAddHandler (freshEvent true) 7 NULL 0 0).event
        8 NULL 0 0).event 1 true).event 0).event 9 NULL 0 0).ret = 0 ∧
    registered (uiEventAddHandler (uiEventDeleteHandler (uiEventSetHandlerBlocked
      (uiEventAddHandler (uiEventAddHandler (freshEvent true) 7 NULL 0 0).event
        8 NULL 0 0).event 1 true).event 0).event 9 NULL 0 0).event =
      [⟨0, 9, NULL, 0, true⟩, ⟨1, 7, NULL, 0, true⟩] := by
  decide

/-! ## Array accesses of a registration -/

/-- On a well-formed non-firing registry that is not the empty one with an
empty free-list, every access listed for `uiEventAddHandler` stays inside its
array (the handler array as it is after growth). -/
theorem add_accesses_inBounds (e : uiEvent) (handlerFn sender : Ptr)
    (hwf : WellFormed e) (hne : e.len ≠ 0 ∨ 0 < e.unusedIDsLen) :
    ∀ a ∈ uiEventAddHandlerAccesses e handlerFn sender,
      a.inBounds (if e.len ≥ e.cap then e.cap + nGrow else e.cap) e.unusedIDsCap := by
  obtain ⟨hcap, hlen, _, hucap, hulen⟩ := hwf
  have hslot : Access.inBounds (if e.len ≥ e.cap then e.cap + nGrow else e.cap)
      e.unusedIDsCap (Access.handlerSlot e.len) := by
    unfold Access.inBounds
    by_cases hg : e.len ≥ e.cap
    · simp [hg, nGrow]; omega
    · simp [hg]; omega
  intro a ha
  unfold uiEventAddHandlerAccesses at ha
  by_cases hf : e.firing = true
  · simp [hf] at ha
  · by_cases hn : handlerFn = NULL
    · simp [hf, hn] at ha
    · by_cases hc : (checkEventSender e sender .uiEventAddHandler).1 = true
      · by_cases hp : 0 < e.unusedIDsLen
        · simp only [hf, hn, hc, hp, Bool.false_eq_true, if_false, Bool.not_true, if_true,
            gt_iff_lt, List.mem_append, List.mem_singleton] at ha
          rcases ha with (ha | ha) | ha
          · rw [ha]; exact hslot
          · rw [ha]
            unfold Access.inBounds
            omega
          · rw [ha]; exact hslot
        · have hl : e.len ≠ 0 := by
            rcases hne with h | h
            · exact h
            · exact absurd h hp
          simp only [hf, hn, hc, hp, hl, Bool.false_eq_true, if_false, Bool.not_true,
            gt_iff_lt, List.mem_append, List.mem_singleton, List.not_mem_nil, or_false] at ha
          rcases ha with ha | ha
          · rw [ha]; exact hslot
          · rw [ha]; exact hslot
      · simp [hf, hn, hc] at ha

/-- C20 (evaluation of the code): on the registry that `uiNewEvent` returns
(reachable, not firing, no handlers, empty free-list) a registration reads the
handler array at index `len - 1 = -1`, the `size_t` value `SIZE_MAX`: the read
of the previous slot is made with `len = 0`, and its index lies outside
`[0, cap)` for the capacity `32` that the array has after growth. -/
theorem add_reads_before_array :
    Reachable (freshEvent true) ∧ (freshEvent true).firing = false ∧
    (freshEvent true).len = 0 ∧ (freshEvent true).unusedIDsLen = 0 ∧
    (uiEventAddHandler (freshEvent true) 7 NULL 0 0).event.cap = 32 ∧
    uiEventAddHandlerAccesses (freshEvent true) 7 NULL =
      [Access.handlerSlot 0, Access.handlerSlot (-1), Access.handlerSlot 0] ∧
    ¬ ∀ a ∈ uiEventAddHandlerAccesses (freshEvent true) 7 NULL,
      a.inBounds (uiEventAddHandler (freshEvent true) 7 NULL 0 0).event.cap
        (uiEventAddHandler (freshEvent true) 7 NULL 0 0).event.unusedIDsCap := by
  refine ⟨Reachable.new 16 ⟨16, true⟩ (freshEvent true) rfl, rfl, rfl, rfl, ?_, ?_, ?_⟩
  · decide
  · decide
  · decide

end Events
